import Mathlib

/-!
# Dagon save-state deserializer

A shallow embedding of `src/src/Deserializer.cpp` (namespace `dagon`) and the
properties of the snapshot/restore protocol that are checked against it.

The byte source (`SDL_RWops`) is the SDL 2 library; it is embedded after
`SDL_rwops.c`: `SDL_RWread(ctx, ptr, size, 1)` reports `1` when `size > 0` bytes
were available and `0` otherwise, a short read still copies and consumes what
was left, and the fixed-width readers start from a zeroed value.
-/

namespace dagon

/-! ## Byte stream (SDL_RWops) -/

/-- One octet of the snapshot stream (`uint8_t`). -/
abbrev Byte := Fin 256

/-- The state of an `SDL_RWops`: the bytes that have not been read yet. -/
abbrev RWops := List Byte

/-- Embedding of `SDL_RWread(rw, buf, size, 1)` on a zero-initialised buffer of
`size` bytes: the number of objects read (0 or 1), the buffer afterwards, and
the stream afterwards. -/
def SDL_RWread (rw : RWops) (size : Nat) : Nat × List Byte × RWops :=
  if size = 0 then (0, [], rw)
  else
    let total := min size rw.length
    (total / size, rw.take total ++ List.replicate (size - total) 0, rw.drop total)

/-- Big-endian value of a buffer. -/
def beValue (buf : List Byte) : Nat :=
  buf.foldl (fun acc b => acc * 256 + b.val) 0

/-- Embedding of `SDL_ReadU8`: the value read (0 at end of stream) and the stream afterwards. -/
def SDL_ReadU8 (rw : RWops) : Nat × RWops :=
  let r := SDL_RWread rw 1
  (beValue r.2.1, r.2.2)

/-- Embedding of `SDL_ReadBE16`. -/
def SDL_ReadBE16 (rw : RWops) : Nat × RWops :=
  let r := SDL_RWread rw 2
  (beValue r.2.1, r.2.2)

/-- Embedding of `SDL_ReadBE32`. -/
def SDL_ReadBE32 (rw : RWops) : Nat × RWops :=
  let r := SDL_RWread rw 4
  (beValue r.2.1, r.2.2)

/-! ## Header -/

/-- The members of `Deserializer` that `readHeader` touches. -/
structure Deserializer where
  _rw : RWops
  _dgVersion : List Byte
  _preview : List Byte
  _roomName : List Byte
deriving DecidableEq, Repr

/-- Embedding of `Deserializer::version`. -/
def Deserializer.version (d : Deserializer) : List Byte := d._dgVersion

/-- Embedding of `Deserializer::preview`. -/
def Deserializer.preview (d : Deserializer) : List Byte := d._preview

/-- Embedding of `Deserializer::roomName`. -/
def Deserializer.roomName (d : Deserializer) : List Byte := d._roomName

/-- Third block of `Deserializer::readHeader` ("Read Room name") and its `return true`.
The vector `buf(len)` is the zeroed buffer of `SDL_RWread`; `buf.capacity()` is `len`. -/
def readHeader_roomName (d : Deserializer) : Bool × Deserializer :=
  let len := SDL_ReadU8 d._rw
  if len.1 = 0 then (false, { d with _rw := len.2 })
  else
    let buf := SDL_RWread len.2 len.1
    if buf.1 = 0 then (false, { d with _rw := buf.2.2 })
    else (true, { d with _rw := buf.2.2, _roomName := buf.2.1 })

/-- Second block of `Deserializer::readHeader` ("Read preview text"), followed by the third. -/
def readHeader_preview (d : Deserializer) : Bool × Deserializer :=
  let len := SDL_ReadU8 d._rw
  if len.1 = 0 then (false, { d with _rw := len.2 })
  else
    let buf := SDL_RWread len.2 len.1
    if buf.1 = 0 then (false, { d with _rw := buf.2.2 })
    else readHeader_roomName { d with _rw := buf.2.2, _preview := buf.2.1 }

/-- Embedding of `Deserializer::readHeader`: the first block ("Read Dagon version
string"), followed by the other two. -/
def readHeader (d : Deserializer) : Bool × Deserializer :=
  let len := SDL_ReadU8 d._rw
  if len.1 = 0 then (false, { d with _rw := len.2 })
  else
    let buf := SDL_RWread len.2 len.1
    if buf.1 = 0 then (false, { d with _rw := buf.2.2 })
    else readHeader_preview { d with _rw := buf.2.2, _dgVersion := buf.2.1 }

/-- Stream layout `u8len s` of the snapshot format: one length byte, then the bytes. -/
def u8len (s : List Byte) : List Byte :=
  Fin.ofNat s.length :: s

/-- Stream layout of the header record: `u8len version, u8len preview, u8len room-id`. -/
def encodeHeader (version preview roomId : List Byte) : List Byte :=
  u8len version ++ (u8len preview ++ u8len roomId)

/-- A header field cannot be read at `s`: the length prefix is missing or zero,
or fewer bytes remain than it announces. -/
def fieldUnreadable (s : RWops) : Prop :=
  match s with
  | [] => True
  | len :: t => len.val = 0 ∨ t.length < len.val

/-- The stream after a length-prefixed field at its front. -/
def afterField (s : RWops) : RWops :=
  match s with
  | [] => []
  | len :: t => t.drop len.val

/-- The bytes of a length-prefixed field at the front of `s`. -/
def fieldBytes (s : RWops) : List Byte :=
  match s with
  | [] => []
  | len :: t => t.take len.val

/-! ## Log -/

/-- The messages `Deserializer.cpp` hands to `Log::instance()`, by format string, with
their arguments. -/
inductive LogEntry where
  /-- warning "Node number mismatch. Expected %d. Got %d" -/
  | nodeMismatch (expected got : Nat)
  /-- warning "Spot number mismatch. Expected %d. Got %d" -/
  | spotMismatch (expected got : Nat)
  /-- warning "Audio number mismatch. Expected %d. Got %d" -/
  | audioMismatch (expected got : Nat)
  /-- warning "Unknown audio state read: %d" -/
  | unknownAudioState (state : Nat)
  /-- warning that the timer function could not be read, with the Lua error -/
  | timerFunction
  /-- warning "Malformed timer", with the time string that could not be parsed -/
  | malformedTimer (str : List Byte)
  /-- warning "Unknown control mode: %d" -/
  | unknownControlMode (mode : Nat)
  /-- error "%s" with `SDL_GetError()` -/
  | sdlError
deriving DecidableEq, Repr

/-! ## Scene graph -/

/-- Decrement of a `uint16_t` (`numSpots--`, `numNodes--`, `numAudios--`). -/
def dec16 (n : Nat) : Nat := (n + 65535) % 65536

/-- Modelled from the spec: `Spot` (Spot.h is not among the sources), reduced to the
activation flag that `enable(true)` and `disable(true)` force. -/
structure Spot where
  isEnabled : Bool
deriving DecidableEq, Repr

/-- Modelled from the spec: `Spot::enable(forced)` with `forced = true` (force-enable). -/
def Spot.enable (_s : Spot) : Spot := { isEnabled := true }

/-- Modelled from the spec: `Spot::disable(forced)` with `forced = true` (force-disable). -/
def Spot.disable (_s : Spot) : Spot := { isEnabled := false }

/-- Modelled from the spec: `Node` (Node.h is not among the sources), an ordered sequence
of spots. The cursor of `beginIteratingSpots` / `currentSpot` / `iterateSpots` walks
`spots` front to back; `iterateSpots` returns false once it has moved past the last spot. -/
structure Node where
  spots : List Spot
deriving DecidableEq, Repr

/-- Modelled from the spec: `Node::numSpots`. -/
def Node.numSpots (n : Node) : Nat := n.spots.length

/-- Modelled from the spec: `Node::hasSpots`. -/
def Node.hasSpots (n : Node) : Bool := !n.spots.isEmpty

/-- The body and condition of the spot loop of `toggleSpots`,
`do { ... numSpots--; } while (node->iterateSpots() && numSpots > 0);`,
entered with the cursor on `spot`, the spots behind the cursor being `rest`.
Returns the stream, the spots from `spot` on, and `numSpots` at loop exit. -/
def toggleSpots_spotLoop (rw : RWops) (spot : Spot) (rest : List Spot) (numSpots : Nat) :
    RWops × List Spot × Nat :=
  let enable := SDL_ReadU8 rw
  let spot1 := if enable.1 ≠ 0 then spot.enable else spot.disable
  let numSpots1 := dec16 numSpots
  match rest with
  | [] => (enable.2, [spot1], numSpots1)            -- iterateSpots() is false
  | next :: rest1 =>
    if numSpots1 > 0 then
      let r := toggleSpots_spotLoop enable.2 next rest1 numSpots1
      (r.1, spot1 :: r.2.1, r.2.2)
    else (enable.2, spot1 :: next :: rest1, numSpots1)

/-- The loop `for (size_t i = 0; i < n; i++) SDL_ReadU8(_rw);`. -/
def drainU8 : Nat → RWops → RWops
  | 0, rw => rw
  | n + 1, rw => drainU8 n (SDL_ReadU8 rw).2

/-- The body of the node loop of `toggleSpots` up to `numNodes--`, on the node under the
cursor: stream, node and warnings afterwards. -/
def toggleSpots_node (rw : RWops) (node : Node) : RWops × Node × List LogEntry :=
  let numSpots := SDL_ReadBE16 rw
  let log := if numSpots.1 ≠ node.numSpots then
      [LogEntry.spotMismatch numSpots.1 node.numSpots] else []
  match node.spots with
  | [] => (numSpots.2, node, log)                   -- hasSpots() is false
  | spot :: rest =>
    let r := toggleSpots_spotLoop numSpots.2 spot rest numSpots.1
    -- Read remaining spots
    (drainU8 r.2.2 r.1, { node with spots := r.2.1 }, log)

/-- The node loop of `toggleSpots`,
`do { ... numNodes--; } while (room->iterateNodes() && numNodes > 0);`,
entered with the cursor on `node`, the nodes behind the cursor being `rest`.
Returns the stream, the nodes from `node` on, `numNodes` at loop exit, and the warnings. -/
def toggleSpots_nodeLoop (rw : RWops) (node : Node) (rest : List Node) (numNodes : Nat) :
    RWops × List Node × Nat × List LogEntry :=
  let b := toggleSpots_node rw node
  let numNodes1 := dec16 numNodes
  match rest with
  | [] => (b.1, [b.2.1], numNodes1, b.2.2)          -- iterateNodes() is false
  | next :: rest1 =>
    if numNodes1 > 0 then
      let r := toggleSpots_nodeLoop b.1 next rest1 numNodes1
      (r.1, b.2.1 :: r.2.1, r.2.2.1, b.2.2 ++ r.2.2.2)
    else (b.1, b.2.1 :: next :: rest1, numNodes1, b.2.2)

/-- The loop "Read remaining nodes" of `toggleSpots`:
`for (i < numNodes) { numSpots = SDL_ReadBE16; for (j < numSpots) SDL_ReadU8; }`. -/
def drainNodes : Nat → RWops → RWops
  | 0, rw => rw
  | n + 1, rw =>
    let numSpots := SDL_ReadBE16 rw
    drainNodes n (drainU8 numSpots.1 numSpots.2)

/-- Embedding of `Deserializer::toggleSpots` on the nodes of the current room: the stream,
the nodes and the warnings afterwards. -/
def toggleSpots (rw : RWops) (nodes : List Node) : RWops × List Node × List LogEntry :=
  let numNodes := SDL_ReadBE16 rw
  let log := if numNodes.1 ≠ nodes.length then
      [LogEntry.nodeMismatch numNodes.1 nodes.length] else []
  match nodes with
  | [] => (numNodes.2, [], log)                     -- hasNodes() is false
  | node :: rest =>
    let r := toggleSpots_nodeLoop numNodes.2 node rest numNodes.1
    -- Read remaining nodes
    (drainNodes r.2.2.1 r.1, r.2.1, log ++ r.2.2.2)

/-- Stream layout of a big-endian `u16`. -/
def be16 (n : Nat) : List Byte := [Fin.ofNat (n / 256), Fin.ofNat (n % 256)]

/-- Stream layout of the saved nodes: per node `u16 spot_count` and its flag bytes. -/
def encodeNodes : List (List Byte) → List Byte
  | [] => []
  | flags :: more => be16 flags.length ++ (flags ++ encodeNodes more)

/-- Stream layout of the SpotToggles section: `u16 node_count`, then the nodes. -/
def encodeSpotToggles (saved : List (List Byte)) : List Byte :=
  be16 saved.length ++ encodeNodes saved

/-- A saved section is well formed when its counts fit their 16-bit fields. -/
def SavedWF (saved : List (List Byte)) : Prop :=
  saved.length ≤ 65535 ∧ ∀ flags ∈ saved, flags.length ≤ 65535

/-- What a saved flag byte asks of a spot: nonzero force-enables, zero force-disables. -/
def restoreSpot (spot : Spot) (flag : Byte) : Spot :=
  if flag.val ≠ 0 then spot.enable else spot.disable

/-- The saved flags of one node applied to its live spots, position by position; live
spots without a saved flag stay as they are. -/
def restoreSpots : List Spot → List Byte → List Spot
  | [], _ => []
  | spots, [] => spots
  | spot :: spots, flag :: flags => restoreSpot spot flag :: restoreSpots spots flags

/-- The saved nodes applied to the live nodes, position by position; live nodes without a
saved record stay as they are. -/
def restoreNodes : List Node → List (List Byte) → List Node
  | [], _ => []
  | nodes, [] => nodes
  | node :: nodes, flags :: saved =>
    { node with spots := restoreSpots node.spots flags } :: restoreNodes nodes saved

/-- Saved and live nodes agree, position by position, on whether a node has spots at
all (the condition under which the node loop stays aligned with the stream). -/
def SpotsCompat : List Node → List (List Byte) → Prop
  | [], _ => True
  | _ :: _, [] => True
  | node :: nodes, flags :: saved =>
    (node.spots = [] ↔ flags = []) ∧ SpotsCompat nodes saved

/-- The spot-count warnings of the nodes that have both a live node and a saved record. -/
def spotWarnings : List Node → List (List Byte) → List LogEntry
  | [], _ => []
  | _ :: _, [] => []
  | node :: nodes, flags :: saved =>
    (if flags.length ≠ node.numSpots then
      [LogEntry.spotMismatch flags.length node.numSpots] else []) ++ spotWarnings nodes saved

/-- The spot a saved flag byte describes: enabled exactly when the byte is nonzero. -/
def savedSpot (flag : Byte) : Spot := { isEnabled := decide (flag.val ≠ 0) }

/-- The node a saved record describes: one spot per flag byte. -/
def savedNode (flags : List Byte) : Node := { spots := flags.map savedSpot }

/-! ## Audio -/

/-- Modelled from the spec: `enum AudioStates` (Audio.h is not among the sources), with the
state codes of the AudioToggles layout: 0 = initial. -/
def kAudioInitial : Nat := 0

/-- Modelled from the spec: state code 1 = playing. -/
def kAudioPlaying : Nat := 1

/-- Modelled from the spec: state code 2 = paused. -/
def kAudioPaused : Nat := 2

/-- Modelled from the spec: state code 3 = stopped. -/
def kAudioStopped : Nat := 3

/-- The operations `toggleAudio` invokes on an audio handle. -/
inductive AudioCall where
  | play
  | pause
  | stop
deriving DecidableEq, Repr

/-- Modelled from the spec: `Audio` (Audio.h is not among the sources), reduced to its
playback state code. -/
structure Audio where
  state : Nat
deriving DecidableEq, Repr

/-- Modelled from the spec: `Audio::isPlaying`. -/
def Audio.isPlaying (a : Audio) : Bool := a.state == kAudioPlaying

/-- Modelled from the spec: `Audio::play`. -/
def Audio.play (_a : Audio) : Audio := { state := kAudioPlaying }

/-- Modelled from the spec: `Audio::pause`. -/
def Audio.pause (_a : Audio) : Audio := { state := kAudioPaused }

/-- Modelled from the spec: `Audio::stop`. -/
def Audio.stop (_a : Audio) : Audio := { state := kAudioStopped }

/-- The `switch (state)` of `toggleAudio` on one handle: the handle afterwards, the call
made on it (if any) and the warning logged (if any). -/
def toggleAudio_switch (state : Nat) (audio : Audio) :
    Audio × List AudioCall × List LogEntry :=
  if state = kAudioInitial then (audio, [], [])
  else if state = kAudioPlaying then
    (if !audio.isPlaying then (audio.play, [AudioCall.play], []) else (audio, [], []))
  else if state = kAudioPaused then (audio.pause, [AudioCall.pause], [])
  else if state = kAudioStopped then (audio.stop, [AudioCall.stop], [])
  else (audio, [], [LogEntry.unknownAudioState state])

/-- The loop `for (Audio *audio : room->arrayOfAudios()) { ... numAudios--; }` of
`toggleAudio`, `k` being the list position of the first handle of `audios`. Returns the
stream, the handles, `numAudios` at loop exit, the warnings, and the calls made, each with
the list position of its handle, in the order they were made. -/
def toggleAudio_loop (rw : RWops) (k : Nat) (audios : List Audio) (numAudios : Nat) :
    RWops × List Audio × Nat × List LogEntry × List (Nat × AudioCall) :=
  match audios with
  | [] => (rw, [], numAudios, [], [])
  | audio :: rest =>
    let state := SDL_ReadU8 rw
    let sw := toggleAudio_switch state.1 audio
    let r := toggleAudio_loop state.2 (k + 1) rest (dec16 numAudios)
    (r.1, sw.1 :: r.2.1, r.2.2.1, sw.2.2 ++ r.2.2.2.1, sw.2.1.map (fun c => (k, c)) ++ r.2.2.2.2)

/-- Embedding of `Deserializer::toggleAudio` on `room->arrayOfAudios()`: the stream, the
handles, the warnings and the calls made on the handles afterwards. -/
def toggleAudio (rw : RWops) (audios : List Audio) :
    RWops × List Audio × List LogEntry × List (Nat × AudioCall) :=
  let numAudios := SDL_ReadBE16 rw
  let log := if numAudios.1 ≠ audios.length then
      [LogEntry.audioMismatch numAudios.1 audios.length] else []
  let r := toggleAudio_loop numAudios.2 0 audios numAudios.1
  -- Read remaining audios
  (drainU8 r.2.2.1 r.1, r.2.1, log ++ r.2.2.2.1, r.2.2.2.2)

/-- Stream layout of the AudioToggles section: `u16 audio_count`, then the state bytes. -/
def encodeAudioToggles (states : List Byte) : List Byte :=
  be16 states.length ++ states

/-- The call a saved state byte asks for on a handle: none for initial (0); `play` for
playing (1) unless the handle is already playing; `pause` for paused (2); `stop` for
stopped (3); none for any other value. -/
def savedAudioCall (state : Byte) (audio : Audio) : Option AudioCall :=
  match state.val with
  | 0 => none
  | 1 => if audio.isPlaying then none else some AudioCall.play
  | 2 => some AudioCall.pause
  | 3 => some AudioCall.stop
  | _ => none

/-- The effect of a call on a handle. -/
def applyAudioCall (audio : Audio) : Option AudioCall → Audio
  | none => audio
  | some AudioCall.play => audio.play
  | some AudioCall.pause => audio.pause
  | some AudioCall.stop => audio.stop

/-- The calls the saved state bytes ask for, handle by handle in list order from
position `k`, each with the position of its handle. -/
def savedAudioCalls : Nat → List Audio → List Byte → List (Nat × AudioCall)
  | _, [], _ => []
  | _, _ :: _, [] => []
  | k, audio :: audios, state :: states =>
    (savedAudioCall state audio).toList.map (fun c => (k, c)) ++
      savedAudioCalls (k + 1) audios states

/-- The warnings for saved state bytes that are no state code, in list order. -/
def savedAudioWarnings : List Audio → List Byte → List LogEntry
  | [], _ => []
  | _ :: _, [] => []
  | _ :: audios, state :: states =>
    (if 3 < state.val then [LogEntry.unknownAudioState state.val] else []) ++
      savedAudioWarnings audios states

/-! ## Script data -/

/-- The C string that `std::string::c_str()` hands to a C API: the bytes before the
first NUL. -/
def c_str (s : List Byte) : List Byte := s.takeWhile (fun b => decide (b.val ≠ 0))

/-- The loop `for (uint32_t i = 0; i < numFields; i++)` of `readScriptData`, with the
number of iterations left. `luaL_dostring` is the statement executor of the script
engine: from a Lua state and a chunk it gives the error code and the Lua state
afterwards. Returns the result (`false` for `return false`), the stream and the Lua
state. -/
def readScriptData_loop {L : Type} (luaL_dostring : L → List Byte → Int × L) :
    Nat → RWops → L → Bool × RWops × L
  | 0, rw, lua => (true, rw, lua)
  | n + 1, rw, lua =>
    let lineLen := SDL_ReadBE16 rw
    let lineBuf := SDL_RWread lineLen.2 lineLen.1
    if lineBuf.1 = 0 then (false, lineBuf.2.2, lua)
    else
      -- errCode is not acted upon
      let r := luaL_dostring lua (c_str lineBuf.2.1)
      readScriptData_loop luaL_dostring n lineBuf.2.2 r.2

/-- Embedding of `Deserializer::readScriptData`. -/
def readScriptData {L : Type} (luaL_dostring : L → List Byte → Int × L) (rw : RWops) (lua : L) :
    Bool × RWops × L :=
  let numFields := SDL_ReadBE32 rw
  readScriptData_loop luaL_dostring numFields.1 numFields.2 lua

/-- Stream layout of a big-endian `u32`. -/
def be32 (n : Nat) : List Byte :=
  [Fin.ofNat (n / 16777216), Fin.ofNat (n / 65536 % 256), Fin.ofNat (n / 256 % 256),
    Fin.ofNat (n % 256)]

/-- Stream layout `u16len s`: a big-endian 16-bit length, then the bytes. -/
def u16len (s : List Byte) : List Byte := be16 s.length ++ s

/-- Stream layout of a sequence of `u16len` statements. -/
def encodeStatements : List (List Byte) → List Byte
  | [] => []
  | st :: more => u16len st ++ encodeStatements more

/-- Stream layout of the ScriptData section: `u32 statement_count`, then the statements. -/
def encodeScriptData (statements : List (List Byte)) : List Byte :=
  be32 statements.length ++ encodeStatements statements

/-! ## Timers -/

/-- The members of `LuaReaderData` other than the buffer. -/
structure LuaReaderData where
  rw : RWops
  numBytes : Nat
  readError : Bool
deriving DecidableEq, Repr

/-- Embedding of `Deserializer::readFunction`: the chunk handed to Lua (`none` for
`nullptr`) and the reader data afterwards. -/
def readFunction (data : LuaReaderData) : Option (List Byte) × LuaReaderData :=
  let r := SDL_RWread data.rw data.numBytes
  if r.1 = 0 then (none, { data with rw := r.2.2, readError := true })
  else (some r.2.1, { data with rw := r.2.2 })

/-- The chunk loader of the script engine as `lua_load` drives it: either it is done, with
a loaded function (error code 0) or without one (error code not 0), or it calls the reader
and goes on from the chunk the reader returns. -/
inductive LuaLoader (F : Type) where
  | result (fn : Option F) : LuaLoader F
  | reader (next : Option (List Byte) → LuaLoader F) : LuaLoader F

/-- The call `lua_load(_L, readFunction, &data, "")`: the loaded function, if any, and the
reader data afterwards. -/
def lua_load {F : Type} : LuaLoader F → LuaReaderData → Option F × LuaReaderData
  | LuaLoader.result fn, data => (fn, data)
  | LuaLoader.reader next, data =>
    let r := readFunction data
    lua_load (next r.1) r.2

/-- Modelled from the spec: a timer entry (TimerManager.h is not among the sources):
trigger, loopable flag, callback and `lastTime`, over exact rational arithmetic. -/
structure Timer (F : Type) where
  trigger : ℚ
  isLoopable : Bool
  luaHandler : F
  lastTime : ℚ

/-- Modelled from the spec: `TimerManager::create(trigger, isLoopable, handler)` registers
one new timer at the back of the collection; `now` is the value its `lastTime` has at
registration. -/
def TimerManager.create {F : Type} (timers : List (Timer F)) (now trigger : ℚ)
    (isLoopable : Bool) (handler : F) : List (Timer F) :=
  timers ++ [{ trigger := trigger, isLoopable := isLoopable, luaHandler := handler,
               lastTime := now }]

/-- The statement `timers().back().lastTime -= duration;`. -/
def rewindBack {F : Type} (timers : List (Timer F)) (duration : ℚ) : List (Timer F) :=
  match timers.getLast? with
  | none => timers
  | some t => timers.dropLast ++ [{ t with lastTime := t.lastTime - duration }]

/-- The body of the loop of `readTimers` on entry `i`. `stod` is `std::stod` (`none` when
it throws), `loader` the chunk loader, `clock i` the value `create` gives `lastTime` in
this iteration. Returns `false` for `return false` and `true` when the loop goes on, with
the stream, the timers and the warnings. -/
def readTimers_entry {F : Type} (stod : List Byte → Option ℚ) (loader : LuaLoader F)
    (clock : Nat → ℚ) (i : Nat) (rw : RWops) (timers : List (Timer F)) :
    Bool × RWops × List (Timer F) × List LogEntry :=
  let isLoopable := SDL_ReadU8 rw
  let triggerLen := SDL_ReadU8 isLoopable.2
  let triggerBuf := SDL_RWread triggerLen.2 triggerLen.1
  if triggerBuf.1 = 0 then (false, triggerBuf.2.2, timers, [])
  else
    match stod triggerBuf.2.1 with
    | some trigger =>
      let timeLeftLen := SDL_ReadU8 triggerBuf.2.2
      let timeLeftBuf := SDL_RWread timeLeftLen.2 timeLeftLen.1
      if timeLeftBuf.1 = 0 then (false, timeLeftBuf.2.2, timers, [])
      else
        match stod timeLeftBuf.2.1 with
        | some timeLeft =>
          let funcLen := SDL_ReadBE16 timeLeftBuf.2.2
          let ld := lua_load loader { rw := funcLen.2, numBytes := funcLen.1, readError := false }
          if ld.2.readError then (false, ld.2.rw, timers, [])
          else
            match ld.1 with
            | none => (true, ld.2.rw, timers, [LogEntry.timerFunction])
            | some ref =>
              let duration := trigger - timeLeft
              (true, ld.2.rw,
                rewindBack
                  (TimerManager.create timers (clock i) trigger (decide (isLoopable.1 ≠ 0)) ref)
                  duration, [])
        | none =>
          -- Read function block
          let len := SDL_ReadBE16 timeLeftBuf.2.2
          let buf := SDL_RWread len.2 len.1
          if buf.1 = 0 then (false, buf.2.2, timers, [LogEntry.malformedTimer timeLeftBuf.2.1])
          else (true, buf.2.2, timers, [LogEntry.malformedTimer timeLeftBuf.2.1])
    | none =>
      -- Read string block
      let len := SDL_ReadU8 triggerBuf.2.2
      let buf := SDL_RWread len.2 len.1
      if buf.1 = 0 then (false, buf.2.2, timers, [LogEntry.malformedTimer triggerBuf.2.1])
      else
        -- Read function block
        let len2 := SDL_ReadBE16 buf.2.2
        let buf2 := SDL_RWread len2.2 len2.1
        if buf2.1 = 0 then
          (false, buf2.2.2, timers, [LogEntry.malformedTimer triggerBuf.2.1])
        else (true, buf2.2.2, timers, [LogEntry.malformedTimer triggerBuf.2.1])

/-- The loop `for (uint16_t i = 0; i < numTimers; i++)` of `readTimers`, with the number
of iterations left and the index `i`. -/
def readTimers_loop {F : Type} (stod : List Byte → Option ℚ) (loader : LuaLoader F)
    (clock : Nat → ℚ) : Nat → Nat → RWops → List (Timer F) →
    Bool × RWops × List (Timer F) × List LogEntry
  | 0, _, rw, timers => (true, rw, timers, [])
  | n + 1, i, rw, timers =>
    let b := readTimers_entry stod loader clock i rw timers
    if b.1 then
      let r := readTimers_loop stod loader clock n (i + 1) b.2.1 b.2.2.1
      (r.1, r.2.1, r.2.2.1, b.2.2.2 ++ r.2.2.2)
    else (false, b.2.1, b.2.2.1, b.2.2.2)

/-- Embedding of `Deserializer::readTimers`: the result, the stream, the timer collection
and the warnings afterwards. -/
def readTimers {F : Type} (stod : List Byte → Option ℚ) (loader : LuaLoader F)
    (clock : Nat → ℚ) (rw : RWops) (timers : List (Timer F)) :
    Bool × RWops × List (Timer F) × List LogEntry :=
  let numTimers := SDL_ReadBE16 rw
  readTimers_loop stod loader clock numTimers.1 0 numTimers.2 timers

/-- Stream layout of one timer entry: `u8 loopable_flag, u8len trigger_time_string,
u8len time_left_string, u16len compiled_callback_blob`. -/
def encodeTimer (flag : Byte) (trigger timeLeft blob : List Byte) : List Byte :=
  flag :: (u8len trigger ++ (u8len timeLeft ++ u16len blob))

/-- Whether a length-prefixed field at the front of `s` cannot be read is decidable. -/
instance fieldUnreadable_decidable (s : RWops) : Decidable (fieldUnreadable s) :=
  match s with
  | [] => isTrue trivial
  | len :: t => inferInstanceAs (Decidable (len.val = 0 ∨ t.length < len.val))

/-- A field with a 16-bit length cannot be read at `s`: the length read is zero (also when
it is missing because the stream ended), or fewer bytes remain than it announces. -/
def fieldUnreadable16 (s : RWops) : Prop :=
  (SDL_ReadBE16 s).1 = 0 ∨ (SDL_ReadBE16 s).2.length < (SDL_ReadBE16 s).1

/-- Whether a field with a 16-bit length cannot be read is decidable. -/
instance fieldUnreadable16_decidable (s : RWops) : Decidable (fieldUnreadable16 s) :=
  inferInstanceAs (Decidable ((SDL_ReadBE16 s).1 = 0 ∨
    (SDL_ReadBE16 s).2.length < (SDL_ReadBE16 s).1))

/-- The bytes of a field with a 16-bit length at the front of `s`. -/
def fieldBytes16 (s : RWops) : List Byte :=
  (SDL_ReadBE16 s).2.take (SDL_ReadBE16 s).1

/-- The stream after a field with a 16-bit length at its front. -/
def afterField16 (s : RWops) : RWops :=
  (SDL_ReadBE16 s).2.drop (SDL_ReadBE16 s).1

/-- A saved timer entry: flag byte, trigger string, time-left string, callback blob. -/
structure SavedTimer where
  flag : Byte
  trigger : List Byte
  timeLeft : List Byte
  blob : List Byte
deriving DecidableEq, Repr

/-- Stream layout of a sequence of timer entries. -/
def encodeTimerEntries : List SavedTimer → List Byte
  | [] => []
  | e :: more => encodeTimer e.flag e.trigger e.timeLeft e.blob ++ encodeTimerEntries more

/-- Stream layout of the Timers section: `u16 timer_count`, then the entries. -/
def encodeTimers (entries : List SavedTimer) : List Byte :=
  be16 entries.length ++ encodeTimerEntries entries

/-- The length fields of a saved timer entry are non-zero and fit their prefixes. -/
def SavedTimer.NonEmpty (e : SavedTimer) : Prop :=
  (1 ≤ e.trigger.length ∧ e.trigger.length ≤ 255) ∧
  (1 ≤ e.timeLeft.length ∧ e.timeLeft.length ≤ 255) ∧
  (1 ≤ e.blob.length ∧ e.blob.length ≤ 65535)

/-- The stream after `n` statements of a ScriptData section, each a field with a 16-bit
length, or `none` when one of them cannot be read. -/
def statementsRest : Nat → RWops → Option RWops
  | 0, rw => some rw
  | n + 1, rw =>
    if fieldUnreadable16 rw then none else statementsRest n (afterField16 rw)

/-- The statements of a ScriptData body that can be read one after the other, at most
`n` of them: the list stops before the first statement that cannot be read. -/
def statementsRead : Nat → RWops → List (List Byte)
  | 0, _ => []
  | n + 1, rw =>
    if fieldUnreadable16 rw then []
    else fieldBytes16 rw :: statementsRead n (afterField16 rw)

/-! ## Control mode -/

/-- Modelled from the spec: control-mode constant of Config.h (not among the sources),
mode code 0 = drag. -/
def kControlDrag : Nat := 0

/-- Modelled from the spec: mode code 1 = fixed. -/
def kControlFixed : Nat := 1

/-- Modelled from the spec: mode code 2 = free. -/
def kControlFree : Nat := 2

/-- Modelled from the spec: `Config` (Config.h is not among the sources), reduced to its
`controlMode` field. -/
structure Config where
  controlMode : Nat
deriving DecidableEq, Repr

/-- Embedding of `Deserializer::readControlMode`: the stream, the configuration and the
warnings afterwards. -/
def readControlMode (rw : RWops) (config : Config) : RWops × Config × List LogEntry :=
  let controlMode := SDL_ReadU8 rw
  if controlMode.1 = kControlDrag ∨ controlMode.1 = kControlFixed ∨
      controlMode.1 = kControlFree then
    (controlMode.2, { config with controlMode := controlMode.1 }, [])
  else (controlMode.2, config, [LogEntry.unknownControlMode controlMode.1])

/-! ## Camera -/

/-- The setter calls `adjustCamera` makes on the camera, with their argument. -/
inductive CameraCall where
  | setAngleHorizontal (angle : Nat)
  | setAngleVertical (angle : Nat)
deriving DecidableEq, Repr

/-- Modelled from the spec: `CameraManager` (CameraManager.h is not among the sources),
reduced to the two angles its setters are handed. -/
structure CameraManager where
  angleHorizontal : Nat
  angleVertical : Nat
deriving DecidableEq, Repr

/-- Modelled from the spec: `CameraManager::setAngleHorizontal`. -/
def CameraManager.setAngleHorizontal (c : CameraManager) (angle : Nat) : CameraManager :=
  { c with angleHorizontal := angle }

/-- Modelled from the spec: `CameraManager::setAngleVertical`. -/
def CameraManager.setAngleVertical (c : CameraManager) (angle : Nat) : CameraManager :=
  { c with angleVertical := angle }

/-- Embedding of `Deserializer::adjustCamera`: the stream and the camera afterwards, and the
setter calls in the order they were made. -/
def adjustCamera (rw : RWops) (camera : CameraManager) :
    RWops × CameraManager × List CameraCall :=
  let hAngle := SDL_ReadBE16 rw
  let camera1 := camera.setAngleHorizontal hAngle.1
  let vAngle := SDL_ReadBE16 hAngle.2
  let camera2 := camera1.setAngleVertical vAngle.1
  (vAngle.2, camera2,
    [CameraCall.setAngleHorizontal hAngle.1, CameraCall.setAngleVertical vAngle.1])

/-! ## Node index -/

/-- Embedding of `Deserializer::readNode`. A `Node *` is the address of a node object;
`nodes` are the addresses of the nodes of the room in the order the cursor reaches them
(`room->iterator()` after `beginIteratingNodes()` is the first of them), and `sizeofNode`
is `sizeof(Node)`, the stride of `+` on a `Node *`. Returns the pointer (`none` for
`nullptr`) and the stream afterwards. -/
def readNode (rw : RWops) (nodes : List Nat) (sizeofNode : Nat) : Option Nat × RWops :=
  let nodeIdx := SDL_ReadBE16 rw
  match nodes with
  | [] => (none, nodeIdx.2)                          -- hasNodes() is false
  | first :: _ => (some (first + nodeIdx.1 * sizeofNode), nodeIdx.2)

/-! ## Header peek -/

/-- The live state a restore works on: nodes with their spots, audio handles, timers,
camera and configuration. -/
structure LiveState (F : Type) where
  nodes : List Node
  audios : List Audio
  timers : List (Timer F)
  camera : CameraManager
  config : Config

/-- What `readPreview` can see or change: the snapshot resources by path (`none` where
`SDL_RWFromFile` fails), the number of streams that are open, the log, and the live
state. -/
structure World (F : Type) where
  files : String → Option (List Byte)
  openStreams : Nat
  log : List LogEntry
  live : LiveState F

/-- Embedding of `Deserializer::readPreview`: the string returned and the world
afterwards. `SDL_RWFromFile` opens a stream (one more open stream), `SDL_RWclose` closes
it; the returned `std::string` is built from the C string in `buf`. -/
def readPreview {F : Type} (path : String) (w : World F) : List Byte × World F :=
  match w.files path with
  | none => ([], { w with log := w.log ++ [LogEntry.sdlError] })
  | some rw =>
    let opened : World F := { w with openStreams := w.openStreams + 1 }
    let len := SDL_ReadU8 rw
    if len.1 = 0 then ([], { opened with log := opened.log ++ [LogEntry.sdlError] })
    else
      let buf := SDL_RWread len.2 len.1
      if buf.1 = 0 then ([], { opened with log := opened.log ++ [LogEntry.sdlError] })
      else
        let len2 := SDL_ReadU8 buf.2.2
        if len2.1 = 0 then ([], { opened with log := opened.log ++ [LogEntry.sdlError] })
        else
          let buf2 := SDL_RWread len2.2 len2.1
          if buf2.1 = 0 then ([], { opened with log := opened.log ++ [LogEntry.sdlError] })
          else
            -- SDL_RWclose(rw); buf[len] = 0; return buf
            (c_str buf2.2.1, { opened with openStreams := opened.openStreams - 1 })

/-! ### Stream lemmas -/

theorem SDL_ReadU8_nil : SDL_ReadU8 [] = (0, []) := by
  simp [SDL_ReadU8, SDL_RWread, beValue]

theorem SDL_ReadU8_cons (b : Byte) (t : RWops) : SDL_ReadU8 (b :: t) = (b.val, t) := by
  simp [SDL_ReadU8, SDL_RWread, beValue]

theorem SDL_RWread_full (rw : RWops) (size : Nat) (h0 : 0 < size) (h : size ≤ rw.length) :
    SDL_RWread rw size = (1, rw.take size, rw.drop size) := by
  have hm : min size rw.length = size := Nat.min_eq_left h
  have hne : size ≠ 0 := by omega
  simp [SDL_RWread, hne, hm, Nat.div_self h0]

theorem SDL_RWread_short (rw : RWops) (size : Nat) (h : rw.length < size) :
    (SDL_RWread rw size).1 = 0 := by
  have hm : min size rw.length = rw.length := Nat.min_eq_right (by omega)
  have hne : size ≠ 0 := by omega
  simp [SDL_RWread, hne, hm, Nat.div_eq_of_lt h]

theorem SDL_RWread_zero (rw : RWops) : SDL_RWread rw 0 = (0, [], rw) := by
  simp [SDL_RWread]

theorem SDL_RWread_append (s rest : List Byte) (h0 : 0 < s.length) :
    SDL_RWread (s ++ rest) s.length = (1, s, rest) := by
  rw [SDL_RWread_full _ _ h0 (by simp)]
  simp

theorem u8len_head_val (s : List Byte) (h : s.length ≤ 255) :
    (Fin.ofNat s.length : Byte).val = s.length := by
  simp only [Fin.ofNat, Nat.reduceAdd]
  omega

theorem readField_fail (rw : RWops) (h : fieldUnreadable rw) :
    (SDL_ReadU8 rw).1 = 0 ∨ (SDL_RWread (SDL_ReadU8 rw).2 (SDL_ReadU8 rw).1).1 = 0 := by
  cases rw with
  | nil => left; simp [SDL_ReadU8_nil]
  | cons len t =>
    rw [SDL_ReadU8_cons]
    rcases h with h | h
    · left; exact h
    · right; exact SDL_RWread_short t len.val h

theorem readField_ok (rw : RWops) (h : ¬ fieldUnreadable rw) :
    (SDL_ReadU8 rw).1 ≠ 0 ∧
      SDL_RWread (SDL_ReadU8 rw).2 (SDL_ReadU8 rw).1 = (1, fieldBytes rw, afterField rw) ∧
      rw.length = 1 + (fieldBytes rw).length + (afterField rw).length := by
  cases rw with
  | nil => exact absurd trivial h
  | cons len t =>
    have h1 : ¬ (len.val = 0 ∨ t.length < len.val) := h
    have h2 : len.val ≠ 0 := fun e => h1 (Or.inl e)
    have h3 : len.val ≤ t.length := by
      by_contra hc
      exact h1 (Or.inr (by omega))
    rw [SDL_ReadU8_cons]
    refine ⟨h2, ?_, ?_⟩
    · rw [SDL_RWread_full t len.val (by omega) h3]
      rfl
    · simp only [fieldBytes, afterField, List.length_cons, List.length_take, List.length_drop]
      omega

theorem readHeader_roomName_fail (d : Deserializer) (h : fieldUnreadable d._rw) :
    (readHeader_roomName d).1 = false := by
  unfold readHeader_roomName
  rcases readField_fail _ h with e | e
  · simp [e]
  · simp only [e]; split_ifs <;> rfl

theorem readHeader_roomName_ok (d : Deserializer) (h : ¬ fieldUnreadable d._rw) :
    readHeader_roomName d =
      (true, { d with _rw := afterField d._rw, _roomName := fieldBytes d._rw }) := by
  obtain ⟨n, r, -⟩ := readField_ok _ h
  unfold readHeader_roomName
  simp [n, r]

theorem readHeader_preview_fail (d : Deserializer) (h : fieldUnreadable d._rw) :
    (readHeader_preview d).1 = false := by
  unfold readHeader_preview
  rcases readField_fail _ h with e | e
  · simp [e]
  · simp only [e]; split_ifs <;> rfl

theorem readHeader_preview_ok (d : Deserializer) (h : ¬ fieldUnreadable d._rw) :
    readHeader_preview d =
      readHeader_roomName { d with _rw := afterField d._rw, _preview := fieldBytes d._rw } := by
  obtain ⟨n, r, -⟩ := readField_ok _ h
  unfold readHeader_preview
  simp [n, r]

theorem readHeader_version_fail (d : Deserializer) (h : fieldUnreadable d._rw) :
    (readHeader d).1 = false := by
  unfold readHeader
  rcases readField_fail _ h with e | e
  · simp [e]
  · simp only [e]; split_ifs <;> rfl

theorem readHeader_version_ok (d : Deserializer) (h : ¬ fieldUnreadable d._rw) :
    readHeader d =
      readHeader_preview { d with _rw := afterField d._rw, _dgVersion := fieldBytes d._rw } := by
  obtain ⟨n, r, -⟩ := readField_ok _ h
  unfold readHeader
  simp [n, r]

/-- What `readHeader` does, by cases on whether the three fields are readable. -/
theorem readHeader_cases (d : Deserializer) :
    (fieldUnreadable d._rw ∨ fieldUnreadable (afterField d._rw) ∨
        fieldUnreadable (afterField (afterField d._rw))) ∧ (readHeader d).1 = false ∨
    (¬ fieldUnreadable d._rw ∧ ¬ fieldUnreadable (afterField d._rw) ∧
        ¬ fieldUnreadable (afterField (afterField d._rw))) ∧
      readHeader d = (true, ⟨afterField (afterField (afterField d._rw)), fieldBytes d._rw,
        fieldBytes (afterField d._rw), fieldBytes (afterField (afterField d._rw))⟩) := by
  by_cases h1 : fieldUnreadable d._rw
  · exact Or.inl ⟨Or.inl h1, readHeader_version_fail d h1⟩
  · rw [readHeader_version_ok d h1]
    by_cases h2 : fieldUnreadable (afterField d._rw)
    · exact Or.inl ⟨Or.inr (Or.inl h2), readHeader_preview_fail _ h2⟩
    · rw [readHeader_preview_ok _ h2]
      by_cases h3 : fieldUnreadable (afterField (afterField d._rw))
      · exact Or.inl ⟨Or.inr (Or.inr h3), readHeader_roomName_fail _ h3⟩
      · rw [readHeader_roomName_ok _ h3]
        exact Or.inr ⟨⟨h1, h2, h3⟩, rfl⟩

theorem u8len_readable (v x : List Byte) (h0 : 1 ≤ v.length) (h : v.length ≤ 255) :
    ¬ fieldUnreadable (u8len v ++ x) ∧ fieldBytes (u8len v ++ x) = v ∧
      afterField (u8len v ++ x) = x := by
  have hv := u8len_head_val v h
  refine ⟨?_, ?_, ?_⟩
  · intro hc
    have hc2 : (Fin.ofNat v.length : Byte).val = 0 ∨
        (v ++ x).length < (Fin.ofNat v.length : Byte).val := hc
    rw [hv, List.length_append] at hc2
    omega
  · show (v ++ x).take (Fin.ofNat v.length : Byte).val = v
    rw [hv]; simp
  · show (v ++ x).drop (Fin.ofNat v.length : Byte).val = x
    rw [hv]; simp

theorem readable_eq_u8len (rw : RWops) (h : ¬ fieldUnreadable rw) :
    rw = u8len (fieldBytes rw) ++ afterField rw := by
  cases rw with
  | nil => exact absurd trivial h
  | cons len t =>
    have h1 : ¬ (len.val = 0 ∨ t.length < len.val) := h
    have h3 : len.val ≤ t.length := by
      by_contra hc
      exact h1 (Or.inr (by omega))
    have hl : (t.take len.val).length = len.val := by simp [h3]
    have hf : (Fin.ofNat (t.take len.val).length : Byte) = len := by
      rw [hl]
      apply Fin.ext
      simp only [Fin.ofNat, Nat.reduceAdd]
      omega
    show len :: t = (Fin.ofNat (t.take len.val).length :: t.take len.val) ++ t.drop len.val
    rw [hf]
    simp

/-! ## Header theorems -/

/-- C1 (counterexample). The round trip fails at length 0: on the encoding of the
header with an empty version string, `readHeader` returns failure. -/
theorem readHeader_empty_version_fails :
    ([] : List Byte).length ≤ 255 ∧
    (readHeader ⟨encodeHeader [] [112] [114], [], [], []⟩).1 = false := by
  decide

/-- C1 (amended). Header round trip for strings of length 1 to 255: `readHeader` on the
stream `u8len version, u8len preview, u8len room-id` (followed by anything) returns
success, leaves the stream just after the header, and `version()`, `preview()` and
`roomName()` are the three encoded strings. -/
theorem readHeader_roundtrip (version preview roomId rest : List Byte) (d : Deserializer)
    (hv : 1 ≤ version.length ∧ version.length ≤ 255)
    (hp : 1 ≤ preview.length ∧ preview.length ≤ 255)
    (hr : 1 ≤ roomId.length ∧ roomId.length ≤ 255)
    (hd : d._rw = encodeHeader version preview roomId ++ rest) :
    (readHeader d).1 = true ∧ (readHeader d).2._rw = rest ∧
      (readHeader d).2.version = version ∧ (readHeader d).2.preview = preview ∧
      (readHeader d).2.roomName = roomId := by
  have e1 := u8len_readable version (u8len preview ++ (u8len roomId ++ rest)) hv.1 hv.2
  have e2 := u8len_readable preview (u8len roomId ++ rest) hp.1 hp.2
  have e3 := u8len_readable roomId rest hr.1 hr.2
  have hd2 : d._rw = u8len version ++ (u8len preview ++ (u8len roomId ++ rest)) := by
    rw [hd, encodeHeader]; simp only [List.append_assoc]
  rw [readHeader_version_ok d (by rw [hd2]; exact e1.1), hd2, e1.2.1, e1.2.2,
    readHeader_preview_ok _ e2.1]
  simp only [e2.2.1, e2.2.2]
  rw [readHeader_roomName_ok _ e3.1]
  simp only [e3.2.1, e3.2.2, Deserializer.version, Deserializer.preview, Deserializer.roomName,
    and_self]

/-- Witness of the header round trip: version "1.0", preview "hi", room "r", one byte after
the header. -/
theorem readHeader_roundtrip_witness :
    (readHeader ⟨encodeHeader [49, 46, 48] [104, 105] [114] ++ [7], [], [], []⟩).1 = true ∧
    (readHeader ⟨encodeHeader [49, 46, 48] [104, 105] [114] ++ [7], [], [], []⟩).2._rw = [7] ∧
    (readHeader ⟨encodeHeader [49, 46, 48] [104, 105] [114] ++ [7], [], [], []⟩).2.version
      = [49, 46, 48] ∧
    (readHeader ⟨encodeHeader [49, 46, 48] [104, 105] [114] ++ [7], [], [], []⟩).2.preview
      = [104, 105] ∧
    (readHeader ⟨encodeHeader [49, 46, 48] [104, 105] [114] ++ [7], [], [], []⟩).2.roomName
      = [114] :=
  readHeader_roundtrip [49, 46, 48] [104, 105] [114] [7] _ (by decide) (by decide) (by decide) rfl

/-- C2. `readHeader` returns failure exactly when one of the three header fields cannot
be read (length prefix missing or zero, or fewer bytes left than announced); on success
the stream was the three length-prefixed fields followed by what is left, so exactly
`3 + len(version) + len(preview) + len(room-id)` bytes were consumed. -/
theorem readHeader_failure_iff (d : Deserializer) :
    ((readHeader d).1 = false ↔
      (fieldUnreadable d._rw ∨ fieldUnreadable (afterField d._rw) ∨
        fieldUnreadable (afterField (afterField d._rw)))) ∧
    ((readHeader d).1 = true →
      d._rw = encodeHeader (readHeader d).2.version (readHeader d).2.preview
          (readHeader d).2.roomName ++ (readHeader d).2._rw ∧
      d._rw.length = 3 + (readHeader d).2.version.length + (readHeader d).2.preview.length +
          (readHeader d).2.roomName.length + (readHeader d).2._rw.length) := by
  rcases readHeader_cases d with ⟨hu, hf⟩ | ⟨⟨h1, h2, h3⟩, hs⟩
  · refine ⟨⟨fun _ => hu, fun _ => hf⟩, fun ht => ?_⟩
    rw [hf] at ht
    exact Bool.noConfusion ht
  · have hstream : d._rw = encodeHeader (readHeader d).2.version (readHeader d).2.preview
        (readHeader d).2.roomName ++ (readHeader d).2._rw := by
      rw [hs]
      simp only [Deserializer.version, Deserializer.preview, Deserializer.roomName, encodeHeader,
        List.append_assoc]
      rw [← readable_eq_u8len _ h3, ← readable_eq_u8len _ h2, ← readable_eq_u8len _ h1]
    refine ⟨⟨fun hf => ?_, fun hu => ?_⟩, fun _ => ⟨hstream, ?_⟩⟩
    · rw [hs] at hf
      exact Bool.noConfusion hf
    · rcases hu with hu | hu | hu
      · exact absurd hu h1
      · exact absurd hu h2
      · exact absurd hu h3
    · have hl := congrArg List.length hstream
      simp only [encodeHeader, u8len, List.length_append, List.length_cons] at hl
      omega

/-- Witness of the consumption count: a stream of 8 bytes on which `readHeader` succeeds
and leaves one byte. -/
theorem readHeader_failure_iff_witness :
    (readHeader ⟨[1, 65, 2, 66, 67, 1, 68, 9], [], [], []⟩).1 = true ∧
    ([1, 65, 2, 66, 67, 1, 68, 9] : List Byte).length =
      3 + (readHeader ⟨[1, 65, 2, 66, 67, 1, 68, 9], [], [], []⟩).2.version.length +
        (readHeader ⟨[1, 65, 2, 66, 67, 1, 68, 9], [], [], []⟩).2.preview.length +
        (readHeader ⟨[1, 65, 2, 66, 67, 1, 68, 9], [], [], []⟩).2.roomName.length +
        (readHeader ⟨[1, 65, 2, 66, 67, 1, 68, 9], [], [], []⟩).2._rw.length :=
  ⟨by decide,
    ((readHeader_failure_iff ⟨[1, 65, 2, 66, 67, 1, 68, 9], [], [], []⟩).2 (by decide)).2⟩

/-! ## SpotToggles lemmas -/

theorem SDL_ReadU8_snd (rw : RWops) : (SDL_ReadU8 rw).2 = rw.drop 1 := by
  cases rw with
  | nil => simp [SDL_ReadU8_nil]
  | cons b t => simp [SDL_ReadU8_cons]

theorem drainU8_eq_drop (n : Nat) : ∀ rw : RWops, drainU8 n rw = rw.drop n := by
  induction n with
  | zero => intro rw; simp [drainU8]
  | succ n ih =>
    intro rw
    rw [drainU8, ih, SDL_ReadU8_snd, List.drop_drop]
    congr 1
    omega

theorem SDL_ReadBE16_nil : SDL_ReadBE16 [] = (0, []) := by
  simp [SDL_ReadBE16, SDL_RWread, beValue]

theorem SDL_ReadBE16_cons (a b : Byte) (t : RWops) :
    SDL_ReadBE16 (a :: b :: t) = (a.val * 256 + b.val, t) := by
  simp [SDL_ReadBE16, SDL_RWread, beValue]

theorem SDL_ReadBE16_be16 (n : Nat) (h : n ≤ 65535) (t : RWops) :
    SDL_ReadBE16 (be16 n ++ t) = (n, t) := by
  have e : be16 n ++ t = Fin.ofNat (n / 256) :: Fin.ofNat (n % 256) :: t := rfl
  rw [e, SDL_ReadBE16_cons]
  simp only [Fin.ofNat, Nat.reduceAdd, Prod.mk.injEq, and_true]
  omega

theorem drainNodes_nil (n : Nat) : drainNodes n [] = [] := by
  induction n with
  | zero => rfl
  | succ n ih => simp [drainNodes, SDL_ReadBE16_nil, drainU8_eq_drop, ih]

theorem dec16_succ (n : Nat) (h : n + 1 ≤ 65535) : dec16 (n + 1) = n := by
  unfold dec16
  omega

theorem restoreSpots_nil_right (spots : List Spot) : restoreSpots spots [] = spots := by
  cases spots <;> rfl

theorem restoreNodes_nil_right (nodes : List Node) : restoreNodes nodes [] = nodes := by
  cases nodes <;> rfl

/-- The spot loop on a node that has `bs.length + 1` saved flags. -/
theorem toggleSpots_spotLoop_spec (tail : RWops) :
    ∀ (rest : List Spot) (spot : Spot) (b : Byte) (bs : List Byte), bs.length + 1 ≤ 65535 →
      toggleSpots_spotLoop (b :: (bs ++ tail)) spot rest (bs.length + 1) =
        (bs.drop rest.length ++ tail, restoreSpots (spot :: rest) (b :: bs),
          bs.length - rest.length) := by
  intro rest
  induction rest with
  | nil =>
    intro spot b bs h
    rw [toggleSpots_spotLoop, SDL_ReadU8_cons, dec16_succ _ h]
    simp [restoreSpots, restoreSpot]
  | cons next rest1 ih =>
    intro spot b bs h
    rw [toggleSpots_spotLoop, SDL_ReadU8_cons, dec16_succ _ h]
    cases bs with
    | nil => simp [restoreSpots, restoreSpot]
    | cons b1 bs1 =>
      have h1 : bs1.length + 1 ≤ 65535 := by
        simp only [List.length_cons] at h
        omega
      simp only [List.length_cons, Nat.zero_lt_succ, if_true, List.cons_append]
      rw [ih next b1 bs1 h1]
      simp [restoreSpots, restoreSpot]

/-- The loop body on one node whose saved record is `flags`. -/
theorem toggleSpots_node_spec (node : Node) (flags : List Byte) (tail : RWops)
    (hlen : flags.length ≤ 65535) (hc : node.spots = [] ↔ flags = []) :
    toggleSpots_node (be16 flags.length ++ (flags ++ tail)) node =
      (tail, { node with spots := restoreSpots node.spots flags },
        if flags.length ≠ node.numSpots then
          [LogEntry.spotMismatch flags.length node.numSpots] else []) := by
  obtain ⟨spots⟩ := node
  cases spots with
  | nil =>
    have hf : flags = [] := hc.1 rfl
    subst hf
    simp [toggleSpots_node, SDL_ReadBE16_be16, restoreSpots]
  | cons spot rest =>
    cases flags with
    | nil => exact absurd (hc.2 rfl) (by simp)
    | cons b bs =>
      have hb : bs.length + 1 ≤ 65535 := hlen
      have key := toggleSpots_spotLoop_spec tail rest spot b bs hb
      have hr : SDL_ReadBE16 (be16 (bs.length + 1) ++ (b :: (bs ++ tail))) =
          (bs.length + 1, b :: (bs ++ tail)) := SDL_ReadBE16_be16 _ hb _
      simp only [toggleSpots_node, List.length_cons, List.cons_append, hr, key, drainU8_eq_drop]
      simp

theorem drainNodes_spec (tail : RWops) :
    ∀ saved : List (List Byte), (∀ flags ∈ saved, flags.length ≤ 65535) →
      drainNodes saved.length (encodeNodes saved ++ tail) = tail := by
  intro saved
  induction saved with
  | nil => intro _; rfl
  | cons flags more ih =>
    intro h
    have hf : flags.length ≤ 65535 := h flags (List.mem_cons_self _ _)
    have hm : ∀ f ∈ more, f.length ≤ 65535 := fun f hf => h f (List.mem_cons_of_mem _ hf)
    simp only [List.length_cons, drainNodes, encodeNodes, List.append_assoc,
      SDL_ReadBE16_be16 _ hf, drainU8_eq_drop, List.drop_left, ih hm]

/-- The node loop on a section whose first saved node is `flags`, the others `more`. -/
theorem toggleSpots_nodeLoop_spec (tail : RWops) :
    ∀ (rest : List Node) (node : Node) (flags : List Byte) (more : List (List Byte)),
      more.length + 1 ≤ 65535 → (∀ f ∈ flags :: more, f.length ≤ 65535) →
      SpotsCompat (node :: rest) (flags :: more) →
      toggleSpots_nodeLoop (encodeNodes (flags :: more) ++ tail) node rest (more.length + 1) =
        (encodeNodes (more.drop rest.length) ++ tail,
          restoreNodes (node :: rest) (flags :: more),
          more.length - rest.length,
          spotWarnings (node :: rest) (flags :: more)) := by
  intro rest
  induction rest with
  | nil =>
    intro node flags more hS hlen hc
    have hf : flags.length ≤ 65535 := hlen flags (List.mem_cons_self _ _)
    rw [toggleSpots_nodeLoop, dec16_succ _ hS]
    simp only [encodeNodes, List.append_assoc, toggleSpots_node_spec node flags _ hf hc.1]
    simp [restoreNodes, spotWarnings]
  | cons next rest1 ih =>
    intro node flags more hS hlen hc
    have hf : flags.length ≤ 65535 := hlen flags (List.mem_cons_self _ _)
    have hm : ∀ f ∈ more, f.length ≤ 65535 := fun f hf => hlen f (List.mem_cons_of_mem _ hf)
    rw [toggleSpots_nodeLoop, dec16_succ _ hS]
    simp only [encodeNodes, List.append_assoc, toggleSpots_node_spec node flags _ hf hc.1]
    cases more with
    | nil => simp [restoreNodes, spotWarnings, encodeNodes]
    | cons f1 more1 =>
      have h1 : more1.length + 1 ≤ 65535 := by
        simp only [List.length_cons] at hS
        omega
      have key := ih next f1 more1 h1 hm hc.2
      simp only [encodeNodes, List.append_assoc] at key
      simp only [List.length_cons, Nat.zero_lt_succ, if_true, encodeNodes, List.append_assoc, key]
      simp [restoreNodes, spotWarnings]

/-- The whole of `toggleSpots` when both the section and the room have a node and saved and
live nodes agree on having spots: the section is consumed exactly and the saved flags
are applied position by position. -/
theorem toggleSpots_aligned (saved : List (List Byte)) (nodes : List Node) (tail : RWops)
    (hwf : SavedWF saved) (hs : saved ≠ []) (hn : nodes ≠ []) (hc : SpotsCompat nodes saved) :
    toggleSpots (encodeSpotToggles saved ++ tail) nodes =
      (tail, restoreNodes nodes saved,
        (if saved.length ≠ nodes.length then
          [LogEntry.nodeMismatch saved.length nodes.length] else []) ++
          spotWarnings nodes saved) := by
  cases saved with
  | nil => exact absurd rfl hs
  | cons flags more =>
    cases nodes with
    | nil => exact absurd rfl hn
    | cons node rest =>
      have hS : more.length + 1 ≤ 65535 := hwf.1
      have key := toggleSpots_nodeLoop_spec tail rest node flags more hS hwf.2 hc
      have hd : drainNodes (more.length - rest.length)
          (encodeNodes (more.drop rest.length) ++ tail) = tail := by
        have := drainNodes_spec tail (more.drop rest.length)
          (fun f hf => hwf.2 f (List.mem_cons_of_mem _ (List.mem_of_mem_drop hf)))
        rwa [List.length_drop] at this
      have hr : SDL_ReadBE16 (be16 (more.length + 1) ++ (encodeNodes (flags :: more) ++ tail)) =
          (more.length + 1, encodeNodes (flags :: more) ++ tail) := SDL_ReadBE16_be16 _ hS _
      simp only [toggleSpots, encodeSpotToggles, List.append_assoc, List.length_cons, hr, key, hd]

theorem restoreSpot_eq_savedSpot (spot : Spot) (flag : Byte) :
    restoreSpot spot flag = savedSpot flag := by
  unfold restoreSpot savedSpot Spot.enable Spot.disable
  by_cases h : flag.val = 0 <;> simp [h]

theorem restoreSpots_same_length :
    ∀ (spots : List Spot) (flags : List Byte), spots.length = flags.length →
      restoreSpots spots flags = flags.map savedSpot := by
  intro spots
  induction spots with
  | nil =>
    intro flags h
    cases flags with
    | nil => rfl
    | cons b bs => simp at h
  | cons spot rest ih =>
    intro flags h
    cases flags with
    | nil => simp at h
    | cons b bs =>
      have h1 : rest.length = bs.length := by simpa using h
      simp [restoreSpots, restoreSpot_eq_savedSpot, ih bs h1]

/-- Consequences of "each live node has as many spots (at least one) as its saved record". -/
theorem same_spot_counts :
    ∀ (nodes : List Node) (saved : List (List Byte)),
      (∀ p ∈ nodes.zip saved, 1 ≤ p.1.spots.length ∧ p.1.spots.length = p.2.length) →
      nodes.length ≤ saved.length →
      SpotsCompat nodes saved ∧ spotWarnings nodes saved = [] ∧
        restoreNodes nodes saved = (saved.take nodes.length).map savedNode := by
  intro nodes
  induction nodes with
  | nil => intro saved _ _; exact ⟨trivial, rfl, by simp [restoreNodes]⟩
  | cons node rest ih =>
    intro saved h hl
    cases saved with
    | nil => simp at hl
    | cons flags more =>
      have h0 := h (node, flags) (by simp)
      have hrest : ∀ p ∈ rest.zip more, 1 ≤ p.1.spots.length ∧ p.1.spots.length = p.2.length :=
        fun p hp => h p (by simp only [List.zip_cons_cons]; exact List.mem_cons_of_mem _ hp)
      have hl1 : rest.length ≤ more.length := by simpa using hl
      obtain ⟨c, w, r⟩ := ih more hrest hl1
      refine ⟨⟨?_, c⟩, ?_, ?_⟩
      · have h1 : 1 ≤ node.spots.length := h0.1
        have h2 : node.spots.length = flags.length := h0.2
        constructor
        · intro e; rw [e] at h1; simp at h1
        · intro e; rw [e] at h2; simp only [List.length_nil] at h2; omega
      · simp [spotWarnings, w, Node.numSpots, h0.2]
      · simp [restoreNodes, r, savedNode, restoreSpots_same_length _ _ h0.2]

theorem encodeNodes_length (saved : List (List Byte)) :
    (encodeNodes saved).length = (saved.map (fun flags => 2 + flags.length)).sum := by
  induction saved with
  | nil => rfl
  | cons flags more ih => simp [encodeNodes, be16, ih]; omega

/-- Live spots beyond the saved flags of their node are not touched by `restoreSpots`. -/
theorem restoreSpots_drop :
    ∀ (spots : List Spot) (flags : List Byte),
      (restoreSpots spots flags).drop flags.length = spots.drop flags.length := by
  intro spots
  induction spots with
  | nil => intro flags; simp [restoreSpots]
  | cons spot rest ih =>
    intro flags
    cases flags with
    | nil => simp [restoreSpots]
    | cons b bs => simp [restoreSpots, ih bs]

/-- Live nodes beyond the saved nodes are not touched by `restoreNodes`. -/
theorem restoreNodes_drop :
    ∀ (nodes : List Node) (saved : List (List Byte)),
      (restoreNodes nodes saved).drop saved.length = nodes.drop saved.length := by
  intro nodes
  induction nodes with
  | nil => intro saved; simp [restoreNodes]
  | cons node rest ih =>
    intro saved
    cases saved with
    | nil => simp [restoreNodes]
    | cons flags more => simp [restoreNodes, ih more]

/-! ## SpotToggles theorems -/

/-- C3 (failing input). One saved node with one spot, restored onto a room without nodes:
`toggleSpots` consumes only the two bytes of the node count and leaves the three bytes
of the saved node in the stream, in front of the byte that follows the section. -/
theorem toggleSpots_empty_room_consumes_count_only :
    (encodeSpotToggles [[1]]).length = 5 ∧
    toggleSpots (encodeSpotToggles [[1]] ++ [42]) [] =
      ([0, 1, 1, 42], [], [LogEntry.nodeMismatch 1 0]) := by
  decide

/-- C4 (failing input). Two saved nodes of one spot each, flags `1` and `0`, restored onto
a room whose first node has no spots and whose second node has one disabled spot: the
record of the first saved node is not drained, the second live node takes the bytes
`1, 0` for its spot count (256) and the byte `1` for its flag, so spot (1, 0) ends up
force-enabled although its saved flag is zero. -/
theorem toggleSpots_misaligned_after_spotless_node :
    toggleSpots (encodeSpotToggles [[1], [0]]) [⟨[]⟩, ⟨[⟨false⟩]⟩] =
      ([], [⟨[]⟩, ⟨[⟨true⟩]⟩],
        [LogEntry.spotMismatch 1 0, LogEntry.spotMismatch 256 1]) := by
  simp [toggleSpots, toggleSpots_nodeLoop, toggleSpots_node, toggleSpots_spotLoop,
    encodeSpotToggles, encodeNodes, be16, SDL_ReadBE16_cons, SDL_ReadU8_cons, dec16,
    drainU8_eq_drop, drainNodes, Node.numSpots, Spot.enable, Spot.disable, Fin.ofNat]

/-- C5. Fewer live nodes than saved: with `1 ≤ L < S` and every live node having as many
spots (at least one) as its saved record, `toggleSpots` consumes the whole section (the
stream is left at `rest`), every spot of the `L` live nodes is set to its saved flag,
and the log is the node-count-mismatch warning; the section is
`2 + Σ (2 + spot_count)` bytes long. -/
theorem toggleSpots_fewer_live_nodes (saved : List (List Byte)) (nodes : List Node)
    (rest : RWops) (hwf : SavedWF saved)
    (hL : 1 ≤ nodes.length) (hLS : nodes.length < saved.length)
    (hspots : ∀ p ∈ nodes.zip saved, 1 ≤ p.1.spots.length ∧ p.1.spots.length = p.2.length) :
    toggleSpots (encodeSpotToggles saved ++ rest) nodes =
        (rest, (saved.take nodes.length).map savedNode,
          [LogEntry.nodeMismatch saved.length nodes.length]) ∧
      (encodeSpotToggles saved).length = 2 + (saved.map (fun flags => 2 + flags.length)).sum := by
  obtain ⟨c, w, r⟩ := same_spot_counts nodes saved hspots (by omega)
  have hs : saved ≠ [] := by
    intro e; rw [e] at hLS; simp at hLS
  have hn : nodes ≠ [] := by
    intro e; rw [e] at hL; simp at hL
  constructor
  · rw [toggleSpots_aligned saved nodes rest hwf hs hn c, w, r]
    have hne : saved.length ≠ nodes.length := by omega
    simp [hne]
  · simp [encodeSpotToggles, be16, encodeNodes_length]
    omega

/-- Witness of the fewer-live-nodes case: 5 saved nodes of 3 spots onto 2 live nodes
of 3 spots; the section is 27 bytes long. -/
theorem toggleSpots_fewer_live_nodes_witness :
    toggleSpots
        (encodeSpotToggles [[1, 0, 1], [0, 1, 1], [1, 1, 1], [0, 0, 0], [1, 0, 0]] ++ [9])
        [⟨[⟨false⟩, ⟨true⟩, ⟨false⟩]⟩, ⟨[⟨true⟩, ⟨true⟩, ⟨false⟩]⟩] =
      ([9], [⟨[⟨true⟩, ⟨false⟩, ⟨true⟩]⟩, ⟨[⟨false⟩, ⟨true⟩, ⟨true⟩]⟩],
        [LogEntry.nodeMismatch 5 2]) ∧
    (encodeSpotToggles [[1, 0, 1], [0, 1, 1], [1, 1, 1], [0, 0, 0], [1, 0, 0]]).length = 27 :=
  toggleSpots_fewer_live_nodes [[1, 0, 1], [0, 1, 1], [1, 1, 1], [0, 0, 0], [1, 0, 0]]
    [⟨[⟨false⟩, ⟨true⟩, ⟨false⟩]⟩, ⟨[⟨true⟩, ⟨true⟩, ⟨false⟩]⟩] [9]
    (by unfold SavedWF; decide) (by decide) (by decide) (by decide)

/-- C6 (failing input). A section that saved no nodes, restored onto a room with one node
holding one enabled spot: the loop body runs before the saved count is tested, reads the
spot count and the flag past the section (zero at the end of the stream), and
force-disables a spot that has no saved record. -/
theorem toggleSpots_zero_saved_nodes_changes_spot :
    encodeSpotToggles [] = [0, 0] ∧
    toggleSpots (encodeSpotToggles []) [⟨[⟨true⟩]⟩] =
      ([], [⟨[⟨false⟩]⟩], [LogEntry.nodeMismatch 0 1, LogEntry.spotMismatch 0 1]) := by
  refine ⟨by decide, ?_⟩
  simp [toggleSpots, toggleSpots_nodeLoop, toggleSpots_node, toggleSpots_spotLoop,
    encodeSpotToggles, encodeNodes, be16, SDL_ReadBE16_cons, SDL_ReadBE16_nil, SDL_ReadU8_nil,
    dec16, drainU8_eq_drop, drainNodes_nil, Node.numSpots, Spot.enable, Spot.disable, Fin.ofNat]

/-! ## AudioToggles lemmas -/

theorem toggleAudio_switch_byte (state : Byte) (audio : Audio) :
    toggleAudio_switch state.val audio =
      (applyAudioCall audio (savedAudioCall state audio),
        (savedAudioCall state audio).toList,
        if 3 < state.val then [LogEntry.unknownAudioState state.val] else []) := by
  unfold toggleAudio_switch savedAudioCall kAudioInitial kAudioPlaying kAudioPaused kAudioStopped
  rcases hv : state.val with _ | _ | _ | _ | n
  · simp [applyAudioCall]
  · by_cases hp : audio.isPlaying <;> simp [applyAudioCall, hp]
  · simp [applyAudioCall]
  · simp [applyAudioCall]
  · simp [applyAudioCall]

theorem toggleAudio_loop_positions :
    ∀ (audios : List Audio) (rw : RWops) (k n : Nat),
      ∀ e ∈ (toggleAudio_loop rw k audios n).2.2.2.2, k ≤ e.1 := by
  intro audios
  induction audios with
  | nil => intro rw k n e he; simp [toggleAudio_loop] at he
  | cons audio rest ih =>
    intro rw k n e he
    simp only [toggleAudio_loop, List.mem_append, List.mem_map] at he
    rcases he with ⟨c, -, rfl⟩ | he
    · exact Nat.le_refl k
    · exact Nat.le_trans (Nat.le_succ k) (ih _ _ _ e he)

/-- The handle loop on a stream that starts with the saved state bytes: the handles that
have a saved byte are treated as the bytes ask, in list order; whatever else happens
concerns later handles only. -/
theorem toggleAudio_loop_spec (tail : RWops) :
    ∀ (audios : List Audio) (states : List Byte) (k n : Nat),
      ∃ (extraAudios : List Audio) (extraLog : List LogEntry)
        (extraCalls : List (Nat × AudioCall)),
        (toggleAudio_loop (states ++ tail) k audios n).2.1 =
          List.zipWith (fun a s => applyAudioCall a (savedAudioCall s a)) audios states ++
            extraAudios ∧
        (toggleAudio_loop (states ++ tail) k audios n).2.2.2.1 =
          savedAudioWarnings audios states ++ extraLog ∧
        (toggleAudio_loop (states ++ tail) k audios n).2.2.2.2 =
          savedAudioCalls k audios states ++ extraCalls ∧
        (∀ e ∈ extraCalls, k + states.length ≤ e.1) ∧
        extraAudios.length = audios.length - states.length := by
  intro audios
  induction audios with
  | nil =>
    intro states k n
    exact ⟨[], [], [], by simp [toggleAudio_loop, savedAudioWarnings, savedAudioCalls]⟩
  | cons audio rest ih =>
    intro states k n
    cases states with
    | nil =>
      refine ⟨(toggleAudio_loop tail k (audio :: rest) n).2.1,
        (toggleAudio_loop tail k (audio :: rest) n).2.2.2.1,
        (toggleAudio_loop tail k (audio :: rest) n).2.2.2.2, ?_, ?_, ?_, ?_, ?_⟩
      · simp
      · simp [savedAudioWarnings]
      · simp [savedAudioCalls]
      · intro e he
        simpa using toggleAudio_loop_positions _ _ _ _ e he
      · have hlen : ∀ (as : List Audio) (rw : RWops) (k n : Nat),
            (toggleAudio_loop rw k as n).2.1.length = as.length := by
          intro as
          induction as with
          | nil => intro rw k n; simp [toggleAudio_loop]
          | cons a r ih2 => intro rw k n; simp [toggleAudio_loop, ih2]
        simp [hlen]
    | cons s ss =>
      obtain ⟨xa, xl, xc, h1, h2, h3, h4, h5⟩ := ih ss (k + 1) (dec16 n)
      refine ⟨xa, xl, xc, ?_, ?_, ?_, ?_, ?_⟩
      · simp only [toggleAudio_loop, List.cons_append, SDL_ReadU8_cons, toggleAudio_switch_byte,
          h1, List.zipWith_cons_cons]
      · simp only [toggleAudio_loop, List.cons_append, SDL_ReadU8_cons, toggleAudio_switch_byte,
          h2, savedAudioWarnings, List.append_assoc]
      · simp only [toggleAudio_loop, List.cons_append, SDL_ReadU8_cons, toggleAudio_switch_byte,
          h3, savedAudioCalls, List.append_assoc]
      · intro e he
        have := h4 e he
        simp only [List.length_cons]
        omega
      · simp only [List.length_cons, h5]
        omega

/-- The handle loop reads one byte per live handle; while the live list is not longer
than the saved one it stays inside the section. -/
theorem toggleAudio_loop_stream (tail : RWops) :
    ∀ (audios : List Audio) (states : List Byte) (k : Nat),
      audios.length ≤ states.length → states.length ≤ 65535 →
      (toggleAudio_loop (states ++ tail) k audios states.length).1 =
          states.drop audios.length ++ tail ∧
        (toggleAudio_loop (states ++ tail) k audios states.length).2.2.1 =
          states.length - audios.length := by
  intro audios
  induction audios with
  | nil => intro states k _ _; simp [toggleAudio_loop]
  | cons audio rest ih =>
    intro states k hl hA
    cases states with
    | nil => simp at hl
    | cons s ss =>
      have hl1 : rest.length ≤ ss.length := by simpa using hl
      have hA1 : ss.length ≤ 65535 := by
        simp only [List.length_cons] at hA
        omega
      have hd : dec16 (ss.length + 1) = ss.length := dec16_succ _ hA
      obtain ⟨i1, i2⟩ := ih ss (k + 1) hl1 hA1
      simp only [toggleAudio_loop, List.cons_append, SDL_ReadU8_cons, List.length_cons, hd, i1, i2,
        List.drop_succ_cons, Nat.add_sub_add_right, and_self]

/-- When the live list is not longer than the saved one, `toggleAudio` leaves the stream
at the first byte after the section. -/
theorem toggleAudio_consumes_section (states : List Byte) (audios : List Audio) (rest : RWops)
    (hA : states.length ≤ 65535) (hl : audios.length ≤ states.length) :
    (toggleAudio (encodeAudioToggles states ++ rest) audios).1 = rest := by
  obtain ⟨i1, i2⟩ := toggleAudio_loop_stream rest audios states 0 hl hA
  have hr : SDL_ReadBE16 (be16 states.length ++ (states ++ rest)) =
      (states.length, states ++ rest) := SDL_ReadBE16_be16 _ hA _
  simp only [toggleAudio, encodeAudioToggles, List.append_assoc, hr, i1, i2, drainU8_eq_drop]
  rw [← List.length_drop, List.drop_left]

/-! ## AudioToggles theorems -/

/-- C7 (failing input). One saved state byte (`paused`) restored onto a room with two audio
handles, the section being followed by the bytes `1, 9`: the second handle takes the
byte `1` that follows the section as its state and is played, `numAudios` wraps from 0
to 65535, and the drain loop then reads the rest of the stream. -/
theorem toggleAudio_longer_live_list_reads_past_section :
    (encodeAudioToggles [2]).length = 3 ∧
    toggleAudio (encodeAudioToggles [2] ++ [1, 9]) [⟨0⟩, ⟨0⟩] =
      ([], [⟨2⟩, ⟨1⟩], [LogEntry.audioMismatch 1 2],
        [(0, AudioCall.pause), (1, AudioCall.play)]) := by
  refine ⟨by decide, ?_⟩
  simp [toggleAudio, toggleAudio_loop, toggleAudio_switch, encodeAudioToggles, be16,
    SDL_ReadBE16_cons, SDL_ReadU8_cons, dec16, drainU8_eq_drop, Fin.ofNat, kAudioInitial,
    kAudioPlaying, kAudioPaused, kAudioStopped, Audio.pause, Audio.play, Audio.isPlaying]

/-- C8. State mapping of `toggleAudio`: on a section of state bytes `states`, every live
handle at a list position that has a saved byte ends as the call asked for by its byte
leaves it (nothing for 0; `play` for 1 unless already playing; `pause` for 2; `stop` for
3; nothing for any other value); the calls made are those calls in list order, all
further calls being on handles at positions without a saved byte; and the log holds, after
the count warning, one unknown-state warning per saved byte above 3, in list order. -/
theorem toggleAudio_state_mapping (states : List Byte) (audios : List Audio) (rest : RWops)
    (hA : states.length ≤ 65535) :
    (toggleAudio (encodeAudioToggles states ++ rest) audios).2.1.take states.length =
        List.zipWith (fun a s => applyAudioCall a (savedAudioCall s a)) audios states ∧
      (∃ extraCalls,
        (toggleAudio (encodeAudioToggles states ++ rest) audios).2.2.2 =
          savedAudioCalls 0 audios states ++ extraCalls ∧
        ∀ e ∈ extraCalls, states.length ≤ e.1) ∧
      (∃ extraLog,
        (toggleAudio (encodeAudioToggles states ++ rest) audios).2.2.1 =
          (if states.length ≠ audios.length then
            [LogEntry.audioMismatch states.length audios.length] else []) ++
            (savedAudioWarnings audios states ++ extraLog)) := by
  obtain ⟨xa, xl, xc, h1, h2, h3, h4, h5⟩ :=
    toggleAudio_loop_spec rest audios states 0 states.length
  have hr : SDL_ReadBE16 (be16 states.length ++ (states ++ rest)) =
      (states.length, states ++ rest) := SDL_ReadBE16_be16 _ hA _
  refine ⟨?_, ⟨xc, ?_, ?_⟩, ⟨xl, ?_⟩⟩
  · simp only [toggleAudio, encodeAudioToggles, List.append_assoc, hr, h1]
    rw [List.take_append_eq_append_take, List.take_of_length_le (by simp)]
    by_cases hl : audios.length ≤ states.length
    · have hx : xa = [] := List.length_eq_zero.mp (by omega)
      simp [hx]
    · have hz : states.length -
          (List.zipWith (fun a s => applyAudioCall a (savedAudioCall s a)) audios states).length
            = 0 := by
        simp only [List.length_zipWith]
        omega
      rw [hz, List.take_zero, List.append_nil]
  · simp only [toggleAudio, encodeAudioToggles, List.append_assoc, hr, h3]
  · intro e he
    simpa using h4 e he
  · simp only [toggleAudio, encodeAudioToggles, List.append_assoc, hr, h2]

/-- Witness of the state mapping: five saved bytes onto three live handles. -/
theorem toggleAudio_state_mapping_witness :
    ([1, 1, 7, 3, 0] : List Byte).length ≤ 65535 ∧
    (toggleAudio (encodeAudioToggles [1, 1, 7, 3, 0] ++ [1, 9]) [⟨0⟩, ⟨1⟩, ⟨1⟩]).2.1.take 5 =
      [⟨1⟩, ⟨1⟩, ⟨1⟩] :=
  ⟨by decide,
    (toggleAudio_state_mapping [1, 1, 7, 3, 0] [⟨0⟩, ⟨1⟩, ⟨1⟩] [1, 9] (by decide)).1⟩

/-! ## Script data lemmas and theorems -/

theorem SDL_ReadBE32_be32 (n : Nat) (h : n < 4294967296) (t : RWops) :
    SDL_ReadBE32 (be32 n ++ t) = (n, t) := by
  simp only [SDL_ReadBE32, SDL_RWread, be32, beValue, Fin.ofNat]
  simp
  omega

theorem u16len_read (st tail : List Byte) (h0 : 1 ≤ st.length) (h : st.length ≤ 65535) :
    SDL_RWread (SDL_ReadBE16 (u16len st ++ tail)).2 (SDL_ReadBE16 (u16len st ++ tail)).1 =
      (1, st, tail) := by
  have hr : SDL_ReadBE16 (u16len st ++ tail) = (st.length, st ++ tail) := by
    rw [u16len, List.append_assoc]
    exact SDL_ReadBE16_be16 _ h _
  rw [hr]
  exact SDL_RWread_append st tail h0

theorem readScriptData_loop_spec {L : Type} (luaL_dostring : L → List Byte → Int × L)
    (rest : RWops) :
    ∀ (statements : List (List Byte)) (lua : L),
      (∀ st ∈ statements, 1 ≤ st.length ∧ st.length ≤ 65535) →
      readScriptData_loop luaL_dostring statements.length
          (encodeStatements statements ++ rest) lua =
        (true, rest, statements.foldl (fun l st => (luaL_dostring l (c_str st)).2) lua) := by
  intro statements
  induction statements with
  | nil => intro lua _; rfl
  | cons st more ih =>
    intro lua h
    have hst := h st (List.mem_cons_self _ _)
    have hmore : ∀ x ∈ more, 1 ≤ x.length ∧ x.length ≤ 65535 :=
      fun x hx => h x (List.mem_cons_of_mem _ hx)
    have hread := u16len_read st (encodeStatements more ++ rest) hst.1 hst.2
    simp only [List.length_cons, readScriptData_loop, encodeStatements, List.append_assoc, hread,
      one_ne_zero, if_false, List.foldl_cons]
    exact ih _ hmore

/-- C9 (counterexample). A section of one statement whose 16-bit length prefix is zero:
`readScriptData` returns failure, with an executor that reports success on everything. -/
theorem readScriptData_empty_statement_fails :
    encodeScriptData [[]] = [0, 0, 0, 1, 0, 0] ∧
    (readScriptData (fun (lua : Unit) _ => ((0 : Int), lua)) (encodeScriptData [[]]) ()).1
      = false := by
  decide

/-- C9 (amended). On a section of `n` statements whose length prefixes are 1 to 65535,
`readScriptData` returns success and leaves the stream after the section, whatever the
executor reports: the Lua state afterwards is the one obtained by executing the
statements (as C strings) once each in stream order. -/
theorem readScriptData_succeeds {L : Type} (luaL_dostring : L → List Byte → Int × L)
    (statements : List (List Byte)) (rest : RWops) (lua : L)
    (hn : statements.length < 4294967296)
    (hs : ∀ st ∈ statements, 1 ≤ st.length ∧ st.length ≤ 65535) :
    readScriptData luaL_dostring (encodeScriptData statements ++ rest) lua =
      (true, rest, statements.foldl (fun l st => (luaL_dostring l (c_str st)).2) lua) := by
  simp only [readScriptData, encodeScriptData, List.append_assoc, SDL_ReadBE32_be32 _ hn]
  exact readScriptData_loop_spec luaL_dostring rest statements lua hs

/-- Witness of the replay: the Lua state is the list of the chunks executed
so far, and the executor reports an error on the first statement. -/
theorem readScriptData_succeeds_witness :
    readScriptData
        (fun (lua : List (List Byte)) chunk =>
          (if chunk = [120] then (1 : Int) else 0, lua ++ [chunk]))
        (encodeScriptData [[120], [121, 122]] ++ [7]) [] =
      (true, [7], [[120], [121, 122]]) :=
  readScriptData_succeeds _ [[120], [121, 122]] [7] [] (by decide) (by decide)

/-! ## Timer lemmas and theorems -/

theorem u8len_read (v tail : List Byte) (h0 : 1 ≤ v.length) (h : v.length ≤ 255) :
    (SDL_ReadU8 (u8len v ++ tail)).1 = v.length ∧
      SDL_RWread (SDL_ReadU8 (u8len v ++ tail)).2 (SDL_ReadU8 (u8len v ++ tail)).1 =
        (1, v, tail) := by
  have e : u8len v ++ tail = Fin.ofNat v.length :: (v ++ tail) := rfl
  rw [e, SDL_ReadU8_cons, u8len_head_val v h]
  exact ⟨rfl, SDL_RWread_append v tail h0⟩

/-- The loader that is done after one chunk, on a blob that is in the stream in full. -/
theorem lua_load_one_chunk {F : Type} (next : Option (List Byte) → LuaLoader F)
    (blob rest : List Byte) (fn : Option F) (h0 : 1 ≤ blob.length)
    (hk : next (some blob) = LuaLoader.result fn) :
    lua_load (LuaLoader.reader next)
        { rw := blob ++ rest, numBytes := blob.length, readError := false } =
      (fn, { rw := rest, numBytes := blob.length, readError := false }) := by
  simp [lua_load, readFunction, SDL_RWread_append blob rest h0, hk]

theorem rewindBack_concat {F : Type} (timers : List (Timer F)) (x : Timer F) (d : ℚ) :
    rewindBack (timers ++ [x]) d = timers ++ [{ x with lastTime := x.lastTime - d }] := by
  have h : (timers ++ [x]).getLast? = some x := by simp
  simp only [rewindBack, h, List.dropLast_concat]

/-- C10. Timer reconstruction. For a timer entry (flag byte, trigger string, time-left
string, callback blob) at the front of the stream whose trigger string parses to `t`,
whose time-left string parses to `l` and whose blob loads as `fn` from its one chunk,
the loop body of `readTimers` registers exactly one timer, `create(t, flag ≠ 0, fn)`,
at the back of the collection, leaves its `lastTime` at the registration value minus
`t - l`, logs nothing and goes on at the byte after the blob; so the loop with `n + 1`
entries left continues as the loop with `n` entries left on the extended collection. -/
theorem readTimers_entry_registers {F : Type} (stod : List Byte → Option ℚ)
    (next : Option (List Byte) → LuaLoader F) (clock : Nat → ℚ) (i : Nat) (flag : Byte)
    (trigger timeLeft blob rest : List Byte) (timers : List (Timer F)) (t l : ℚ) (fn : F)
    (h1 : 1 ≤ trigger.length ∧ trigger.length ≤ 255)
    (h2 : 1 ≤ timeLeft.length ∧ timeLeft.length ≤ 255)
    (h3 : 1 ≤ blob.length ∧ blob.length ≤ 65535)
    (ht : stod trigger = some t) (hl : stod timeLeft = some l)
    (hk : next (some blob) = LuaLoader.result (some fn)) :
    readTimers_entry stod (LuaLoader.reader next) clock i
        (encodeTimer flag trigger timeLeft blob ++ rest) timers =
      (true, rest,
        timers ++ [{ trigger := t, isLoopable := decide (flag.val ≠ 0), luaHandler := fn,
                     lastTime := clock i - (t - l) }], []) ∧
    ∀ n, readTimers_loop stod (LuaLoader.reader next) clock (n + 1) i
        (encodeTimer flag trigger timeLeft blob ++ rest) timers =
      readTimers_loop stod (LuaLoader.reader next) clock n (i + 1) rest
        (timers ++ [{ trigger := t, isLoopable := decide (flag.val ≠ 0), luaHandler := fn,
                      lastTime := clock i - (t - l) }]) := by
  have e1 := u8len_read trigger (u8len timeLeft ++ (u16len blob ++ rest)) h1.1 h1.2
  have e2 := u8len_read timeLeft (u16len blob ++ rest) h2.1 h2.2
  have e3 : SDL_ReadBE16 (u16len blob ++ rest) = (blob.length, blob ++ rest) := by
    rw [u16len, List.append_assoc]
    exact SDL_ReadBE16_be16 _ h3.2 _
  have e4 := lua_load_one_chunk next blob rest (some fn) h3.1 hk
  have hentry : readTimers_entry stod (LuaLoader.reader next) clock i
      (encodeTimer flag trigger timeLeft blob ++ rest) timers =
      (true, rest,
        timers ++ [{ trigger := t, isLoopable := decide (flag.val ≠ 0), luaHandler := fn,
                     lastTime := clock i - (t - l) }], []) := by
    have hs : encodeTimer flag trigger timeLeft blob ++ rest =
        flag :: (u8len trigger ++ (u8len timeLeft ++ (u16len blob ++ rest))) := by
      simp [encodeTimer]
    rw [hs]
    simp only [readTimers_entry, SDL_ReadU8_cons, e1.2, one_ne_zero, if_false, ht, e2.2, hl, e3,
      e4, Bool.false_eq_true, TimerManager.create, rewindBack_concat]
  refine ⟨hentry, fun n => ?_⟩
  rw [readTimers_loop, hentry]
  simp

/-- Witness of the timer reconstruction: a section of one timer with trigger "10.0"
and time left "4.0", the clock standing at 100; the timer ends with `lastTime` 6 below
its value at registration. -/
theorem readTimers_entry_registers_witness :
    readTimers
        (fun str => if str = [49, 48, 46, 48] then some 10
          else if str = [52, 46, 48] then some 4 else none)
        (LuaLoader.reader (fun chunk => LuaLoader.result chunk))
        (fun _ => 100)
        (be16 1 ++ (encodeTimer 1 [49, 48, 46, 48] [52, 46, 48] [27, 76] ++ [])) [] =
      (true, [], [{ trigger := 10, isLoopable := true, luaHandler := [27, 76],
                    lastTime := 100 - (10 - 4) }], []) ∧
    (100 : ℚ) - (10 - 4) = 100 - 6 :=
  ⟨((readTimers_entry_registers
      (fun str => if str = [49, 48, 46, 48] then some 10
          else if str = [52, 46, 48] then some 4 else none)
      (fun chunk => LuaLoader.result chunk) (fun _ => 100) 0 1
      [49, 48, 46, 48] [52, 46, 48] [27, 76] [] [] 10 4 [27, 76]
      (by decide) (by decide) (by decide) rfl rfl rfl).2 0).trans rfl, by norm_num⟩

/-! ## Control mode, camera and node index theorems -/

/-- C13. `readControlMode` on a stream that starts with the mode byte `b`: when `b` is
one of the codes 0, 1, 2 the control mode becomes `b` and nothing is logged; otherwise
the configuration is as before and the unknown-mode warning is logged; in both cases the
stream is left after that one byte. -/
theorem readControlMode_byte (b : Byte) (rest : RWops) (config : Config) :
    (b.val ≤ 2 → readControlMode (b :: rest) config = (rest, { controlMode := b.val }, [])) ∧
    (2 < b.val → readControlMode (b :: rest) config =
      (rest, config, [LogEntry.unknownControlMode b.val])) := by
  unfold readControlMode kControlDrag kControlFixed kControlFree
  rw [SDL_ReadU8_cons]
  constructor
  · intro h
    have hc : b.val = 0 ∨ b.val = 1 ∨ b.val = 2 := by omega
    simp [hc]
  · intro h
    have hc : ¬ (b.val = 0 ∨ b.val = 1 ∨ b.val = 2) := by omega
    simp only [hc, if_false]

/-- Witness of the control-mode cases: the byte 2 sets mode free, the byte 99 leaves mode
fixed and logs the warning. -/
theorem readControlMode_byte_witness :
    readControlMode [2, 5] ⟨1⟩ = ([5], ⟨2⟩, []) ∧
    readControlMode [99, 5] ⟨1⟩ = ([5], ⟨1⟩, [LogEntry.unknownControlMode 99]) :=
  ⟨(readControlMode_byte 2 [5] ⟨1⟩).1 (by decide),
    (readControlMode_byte 99 [5] ⟨1⟩).2 (by decide)⟩

/-- C17. `adjustCamera` on a stream that starts with the bytes `h1 h0 v1 v0`: the
horizontal angle is set to `256 * h1 + h0`, then the vertical angle to `256 * v1 + v0`,
and the stream is left after those four bytes. -/
theorem adjustCamera_big_endian (h1 h0 v1 v0 : Byte) (rest : RWops) (camera : CameraManager) :
    adjustCamera (h1 :: h0 :: v1 :: v0 :: rest) camera =
      (rest,
        { angleHorizontal := 256 * h1.val + h0.val, angleVertical := 256 * v1.val + v0.val },
        [CameraCall.setAngleHorizontal (256 * h1.val + h0.val),
          CameraCall.setAngleVertical (256 * v1.val + v0.val)]) := by
  simp [adjustCamera, SDL_ReadBE16_cons, CameraManager.setAngleHorizontal,
    CameraManager.setAngleVertical, Nat.mul_comm]

/-- On every stream `readNode` leaves what `SDL_ReadBE16` leaves: two bytes are consumed
when two are there. -/
theorem readNode_stream (rw : RWops) (nodes : List Nat) (sizeofNode : Nat) :
    (readNode rw nodes sizeofNode).2 = (SDL_ReadBE16 rw).2 := by
  cases nodes <;> rfl

/-- In a room without nodes `readNode` returns `nullptr`. -/
theorem readNode_no_nodes (rw : RWops) (sizeofNode : Nat) :
    (readNode rw [] sizeofNode).1 = none := rfl

/-- For the index 0 `readNode` returns the first node. -/
theorem readNode_index_zero (first : Nat) (more : List Nat) (sizeofNode : Nat) (rest : RWops) :
    readNode (be16 0 ++ rest) (first :: more) sizeofNode = (some first, rest) := by
  simp [readNode, SDL_ReadBE16_be16]

/-- For every saved index `readNode` returns the address of the first node advanced by
`nodeIdx` times `sizeof(Node)`; the cursor of the room is not advanced. -/
theorem readNode_pointer (i : Nat) (hi : i ≤ 65535) (first : Nat) (more : List Nat)
    (sizeofNode : Nat) (rest : RWops) :
    readNode (be16 i ++ rest) (first :: more) sizeofNode =
      (some (first + i * sizeofNode), rest) := by
  simp [readNode, SDL_ReadBE16_be16 i hi]

/-- C18 (failing input). A room whose two nodes are the objects at the addresses 4096 and
8192, `sizeof(Node)` being 64, and the saved index 1: `readNode` returns
`iterator() + 1`, the address 4160 just behind the first node, not the node at
position 1 of the sequence (8192); the two index bytes are consumed. -/
theorem readNode_index_one_is_not_second_node :
    readNode (be16 1 ++ [7]) [4096, 8192] 64 = (some 4160, [7]) ∧
    ([4096, 8192] : List Nat)[1]? = some 8192 := by
  decide

/-! ## Header peek lemmas and theorems -/

theorem readField_unreadable_read (rw : RWops) (h : fieldUnreadable rw) :
    (SDL_RWread (SDL_ReadU8 rw).2 (SDL_ReadU8 rw).1).1 = 0 := by
  rcases readField_fail rw h with e | e
  · rw [e, SDL_RWread_zero]
  · exact e

theorem c_str_of_no_nul (str : List Byte) (h : ∀ b ∈ str, b.val ≠ 0) : c_str str = str := by
  unfold c_str
  rw [List.takeWhile_eq_self_iff]
  intro b hb
  simpa using h b hb

/-- What `readPreview` does, by cases on the resource and its first two fields. -/
theorem readPreview_cases {F : Type} (path : String) (w : World F) :
    (w.files path = none ∧
      readPreview path w = ([], { w with log := w.log ++ [LogEntry.sdlError] })) ∨
    (∃ rw, w.files path = some rw ∧
      (fieldUnreadable rw ∨ fieldUnreadable (afterField rw)) ∧
      readPreview path w =
        ([], { w with openStreams := w.openStreams + 1,
                      log := w.log ++ [LogEntry.sdlError] })) ∨
    (∃ rw, w.files path = some rw ∧
      (¬ fieldUnreadable rw ∧ ¬ fieldUnreadable (afterField rw)) ∧
      readPreview path w =
        (c_str (fieldBytes (afterField rw)),
          { w with openStreams := w.openStreams + 1 - 1 })) := by
  rcases hf : w.files path with _ | rw
  · left
    exact ⟨rfl, by simp only [readPreview, hf]⟩
  · right
    by_cases h1 : fieldUnreadable rw
    · left
      refine ⟨rw, rfl, Or.inl h1, ?_⟩
      have e := readField_unreadable_read rw h1
      simp only [readPreview, hf, e]
      split_ifs <;> rfl
    · obtain ⟨n1, r1, -⟩ := readField_ok rw h1
      by_cases h2 : fieldUnreadable (afterField rw)
      · left
        refine ⟨rw, rfl, Or.inr h2, ?_⟩
        have e := readField_unreadable_read _ h2
        simp only [readPreview, hf, n1, r1, one_ne_zero, if_false, e]
        split_ifs <;> rfl
      · right
        obtain ⟨n2, r2, -⟩ := readField_ok _ h2
        refine ⟨rw, rfl, ⟨h1, h2⟩, ?_⟩
        simp only [readPreview, hf, n1, r1, one_ne_zero, if_false, n2, r2]

theorem readHeader_roomName_preview (d : Deserializer) :
    (readHeader_roomName d).2._preview = d._preview := by
  unfold readHeader_roomName
  simp only []
  split_ifs <;> rfl

/-- After `readHeader` on a stream whose first two fields are readable, `preview()` is
the second field, whatever becomes of the third. -/
theorem readHeader_preview_field (d : Deserializer) (h1 : ¬ fieldUnreadable d._rw)
    (h2 : ¬ fieldUnreadable (afterField d._rw)) :
    (readHeader d).2.preview = fieldBytes (afterField d._rw) := by
  rw [readHeader_version_ok d h1, readHeader_preview_ok _ h2]
  exact readHeader_roomName_preview _

/-- C14 (counterexample). A snapshot whose preview field is the three bytes `65, 0, 66`:
`readPreview` returns the one byte `65`, `preview()` after `readHeader` on the same
snapshot is `65, 0, 66`. -/
theorem readPreview_stops_at_nul :
    (readPreview "slot"
      (⟨fun _ => some [1, 86, 3, 65, 0, 66, 1, 82], 0, [],
        ⟨[], [], [], ⟨0, 0⟩, ⟨0⟩⟩⟩ : World Unit)).1 = [65] ∧
    (readHeader ⟨[1, 86, 3, 65, 0, 66, 1, 82], [], [], []⟩).2.preview = [65, 0, 66] := by
  decide

/-- C14 (amended). For every snapshot whose first two header fields are readable,
`readPreview` returns the bytes of the second field that precede its first zero byte,
which is the C string of what `preview()` returns after `readHeader` on the same
snapshot; when the field holds no zero byte this is the field itself, the string
`preview()` returns. -/
theorem readPreview_returns_preview {F : Type} (path : String) (w : World F) (rw : RWops)
    (hf : w.files path = some rw) (h1 : ¬ fieldUnreadable rw)
    (h2 : ¬ fieldUnreadable (afterField rw)) :
    (readPreview path w).1 = c_str (fieldBytes (afterField rw)) ∧
    (∀ d : Deserializer, d._rw = rw →
      (readPreview path w).1 = c_str (readHeader d).2.preview ∧
      ((∀ b ∈ fieldBytes (afterField rw), b.val ≠ 0) →
        (readPreview path w).1 = (readHeader d).2.preview)) := by
  have hp : (readPreview path w).1 = c_str (fieldBytes (afterField rw)) := by
    rcases readPreview_cases path w with ⟨hn, -⟩ | ⟨rw1, hs, hu, -⟩ | ⟨rw1, hs, -, hr⟩
    · rw [hf] at hn; exact Option.noConfusion hn
    · rw [hf] at hs
      have e : rw = rw1 := Option.some.inj hs
      subst e
      rcases hu with hu | hu
      · exact absurd hu h1
      · exact absurd hu h2
    · rw [hf] at hs
      have e : rw = rw1 := Option.some.inj hs
      subst e
      rw [hr]
  refine ⟨hp, fun d hd => ?_⟩
  have hprev : (readHeader d).2.preview = fieldBytes (afterField rw) := by
    rw [← hd]
    exact readHeader_preview_field d (by rw [hd]; exact h1) (by rw [hd]; exact h2)
  refine ⟨by rw [hp, hprev], fun hz => ?_⟩
  rw [hp, hprev, c_str_of_no_nul _ hz]

/-- Witness of the peek: version "V", preview "hi", room "R". -/
theorem readPreview_returns_preview_witness :
    (readPreview "slot"
      (⟨fun _ => some [1, 86, 2, 104, 105, 1, 82], 0, [],
        ⟨[], [], [], ⟨0, 0⟩, ⟨0⟩⟩⟩ : World Unit)).1 =
      (readHeader ⟨[1, 86, 2, 104, 105, 1, 82], [], [], []⟩).2.preview :=
  ((readPreview_returns_preview "slot"
      (⟨fun _ => some [1, 86, 2, 104, 105, 1, 82], 0, [],
        ⟨[], [], [], ⟨0, 0⟩, ⟨0⟩⟩⟩ : World Unit)
      [1, 86, 2, 104, 105, 1, 82] rfl (by decide) (by decide)).2
    ⟨[1, 86, 2, 104, 105, 1, 82], [], [], []⟩ rfl).2
    (by
      intro b hb
      have hm : b = 104 ∨ b = 105 := by simpa [fieldBytes, afterField] using hb
      rcases hm with e | e <;> rw [e] <;> decide)

/-- C16 (failing input). A snapshot whose preview field announces 5 bytes and holds 2:
`readPreview` returns the empty string on the early-return path of the short read and
the stream it opened is still open (one open stream more than before the call). -/
theorem readPreview_short_read_leaves_stream_open :
    (readPreview "slot"
      (⟨fun _ => some [1, 86, 5, 104, 105], 0, [],
        ⟨[], [], [], ⟨0, 0⟩, ⟨0⟩⟩⟩ : World Unit)).1 = [] ∧
    (readPreview "slot"
      (⟨fun _ => some [1, 86, 5, 104, 105], 0, [],
        ⟨[], [], [], ⟨0, 0⟩, ⟨0⟩⟩⟩ : World Unit)).2.openStreams = 1 := by
  decide

/-- C19. Two successive calls of `readPreview` on the same path return the same string,
the snapshot resources are as before, and the live state (nodes and spots, audio
handles, timers, camera, configuration) after each call is the live state before the
first. -/
theorem readPreview_idempotent {F : Type} (path : String) (w : World F) :
    (readPreview path (readPreview path w).2).1 = (readPreview path w).1 ∧
    (readPreview path w).2.files = w.files ∧
    (readPreview path w).2.live = w.live ∧
    (readPreview path (readPreview path w).2).2.live = w.live := by
  have frame : ∀ v : World F,
      (readPreview path v).2.files = v.files ∧ (readPreview path v).2.live = v.live := by
    intro v
    rcases readPreview_cases path v with ⟨-, hr⟩ | ⟨rw1, -, -, hr⟩ | ⟨rw1, -, -, hr⟩ <;>
      rw [hr] <;> exact ⟨rfl, rfl⟩
  have text : ∀ v u : World F, v.files = u.files →
      (readPreview path v).1 = (readPreview path u).1 := by
    intro v u hvu
    rcases readPreview_cases path v with ⟨hn, hr⟩ | ⟨rw1, hs, hu, hr⟩ | ⟨rw1, hs, hu, hr⟩ <;>
      rcases readPreview_cases path u with ⟨hn2, hr2⟩ | ⟨rw2, hs2, hu2, hr2⟩ |
        ⟨rw2, hs2, hu2, hr2⟩ <;>
      rw [hr, hr2] <;> rw [hvu] at * <;> simp_all
  refine ⟨text _ _ (frame w).1, (frame w).1, (frame w).2, ?_⟩
  rw [(frame _).2, (frame w).2]

/-! ## Script data truncation -/

theorem readField16_fail (rw : RWops) (h : fieldUnreadable16 rw) :
    (SDL_RWread (SDL_ReadBE16 rw).2 (SDL_ReadBE16 rw).1).1 = 0 := by
  rcases h with e | e
  · rw [e, SDL_RWread_zero]
  · exact SDL_RWread_short _ _ e

theorem readField16_ok (rw : RWops) (h : ¬ fieldUnreadable16 rw) :
    SDL_RWread (SDL_ReadBE16 rw).2 (SDL_ReadBE16 rw).1 =
      (1, fieldBytes16 rw, afterField16 rw) := by
  have h1 : ¬ ((SDL_ReadBE16 rw).1 = 0 ∨ (SDL_ReadBE16 rw).2.length < (SDL_ReadBE16 rw).1) := h
  rw [SDL_RWread_full _ _ (by omega) (by omega)]
  rfl

theorem fieldUnreadable16_short (tail : RWops) (h : tail.length < 2) :
    fieldUnreadable16 tail := by
  rcases tail with _ | ⟨a, _ | ⟨b, t⟩⟩
  · left; simp [SDL_ReadBE16_nil]
  · have e : SDL_ReadBE16 [a] = (a.val * 256, []) := by
      simp [SDL_ReadBE16, SDL_RWread, beValue]
    unfold fieldUnreadable16
    rw [e]
    simp only [List.length_nil]
    omega
  · simp only [List.length_cons] at h
    omega

theorem readScriptData_loop_nil {L : Type} (luaL_dostring : L → List Byte → Int × L)
    (n : Nat) (lua : L) :
    (readScriptData_loop luaL_dostring n [] lua).1 = decide (n = 0) := by
  cases n with
  | zero => rfl
  | succ m => simp [readScriptData_loop, SDL_ReadBE16_nil, SDL_RWread_zero]

/-- The loop runs through statements that are readable. -/
theorem readScriptData_loop_readable {L : Type} (luaL_dostring : L → List Byte → Int × L)
    (m : Nat) :
    ∀ (k : Nat) (rw tail : RWops) (lua : L), statementsRest k rw = some tail →
      ∃ lua1, readScriptData_loop luaL_dostring (k + m) rw lua =
        readScriptData_loop luaL_dostring m tail lua1 := by
  intro k
  induction k with
  | zero =>
    intro rw tail lua h
    have e : rw = tail := Option.some.inj h
    exact ⟨lua, by rw [Nat.zero_add, e]⟩
  | succ k ih =>
    intro rw tail lua h
    by_cases hu : fieldUnreadable16 rw
    · simp [statementsRest, hu] at h
    · have h1 : statementsRest k (afterField16 rw) = some tail := by
        simpa [statementsRest, hu] using h
      obtain ⟨lua1, e⟩ := ih (afterField16 rw) tail
        (luaL_dostring lua (c_str (fieldBytes16 rw))).2 h1
      refine ⟨lua1, ?_⟩
      rw [Nat.succ_add, readScriptData_loop]
      simp only [readField16_ok rw hu, one_ne_zero, if_false]
      exact e

/-- The loop fails on a statement that is not readable. -/
theorem readScriptData_loop_unreadable {L : Type} (luaL_dostring : L → List Byte → Int × L)
    (m : Nat) (rw : RWops) (lua : L) (h : fieldUnreadable16 rw) :
    (readScriptData_loop luaL_dostring (m + 1) rw lua).1 = false := by
  rw [readScriptData_loop]
  simp only [readField16_fail rw h, if_true]

/-- C15 (counterexample). On the empty stream, and on a stream of three zero bytes, both of
which end before the 32-bit statement count has been read in full, `readScriptData`
reports success. -/
theorem readScriptData_truncated_count_succeeds :
    (readScriptData (fun (lua : Unit) _ => ((0 : Int), lua)) [] ()).1 = true ∧
    (readScriptData (fun (lua : Unit) _ => ((0 : Int), lua)) [0, 0, 0] ()).1 = true := by
  decide

/-- C15 (amended). A stream that ends before the 32-bit count has been read in full makes
`readScriptData` report failure exactly when one of its bytes is not zero (when all are
zero, also on the empty stream, the count is read as 0 and success is reported); a stream
that holds the count in full and ends before the 16-bit length of one of the announced
statements has been read in full, the statements before it being readable, makes
`readScriptData` report failure. -/
theorem readScriptData_truncated {L : Type} (luaL_dostring : L → List Byte → Int × L)
    (rw : RWops) (lua : L) :
    (rw.length < 4 →
      ((readScriptData luaL_dostring rw lua).1 = false ↔ ∃ b ∈ rw, b.val ≠ 0)) ∧
    (4 ≤ rw.length → ∀ (k : Nat) (tail : RWops), k < (SDL_ReadBE32 rw).1 →
      statementsRest k (SDL_ReadBE32 rw).2 = some tail → tail.length < 2 →
      (readScriptData luaL_dostring rw lua).1 = false) := by
  constructor
  · intro hlen
    rcases rw with _ | ⟨a, _ | ⟨b, _ | ⟨c, _ | ⟨d, t⟩⟩⟩⟩
    · simp [readScriptData, SDL_ReadBE32, SDL_RWread, beValue, readScriptData_loop]
    · have e : SDL_ReadBE32 [a] = (a.val * 256 * 256 * 256, []) := by
        simp [SDL_ReadBE32, SDL_RWread, beValue]
      simp only [readScriptData, e, readScriptData_loop_nil, List.mem_singleton, exists_eq_left,
        decide_eq_false_iff_not]
      omega
    · have e : SDL_ReadBE32 [a, b] = ((a.val * 256 + b.val) * 256 * 256, []) := by
        simp [SDL_ReadBE32, SDL_RWread, beValue]
      simp only [readScriptData, e, readScriptData_loop_nil, List.mem_cons, List.mem_singleton,
        exists_eq_or_imp, exists_eq_left, decide_eq_false_iff_not, List.mem_nil_iff, false_and,
        exists_false, or_false]
      omega
    · have e : SDL_ReadBE32 [a, b, c] = (((a.val * 256 + b.val) * 256 + c.val) * 256, []) := by
        simp [SDL_ReadBE32, SDL_RWread, beValue]
      simp only [readScriptData, e, readScriptData_loop_nil, List.mem_cons, List.mem_singleton,
        exists_eq_or_imp, exists_eq_left, decide_eq_false_iff_not, List.mem_nil_iff, false_and,
        exists_false, or_false]
      omega
    · simp only [List.length_cons] at hlen
      omega
  · intro _ k tail hk hrest htail
    obtain ⟨m, hm⟩ : ∃ m, (SDL_ReadBE32 rw).1 = k + (m + 1) := ⟨(SDL_ReadBE32 rw).1 - k - 1, by omega⟩
    obtain ⟨lua1, e⟩ := readScriptData_loop_readable luaL_dostring (m + 1) k _ tail lua hrest
    rw [readScriptData, hm, e]
    exact readScriptData_loop_unreadable luaL_dostring m tail lua1
      (fieldUnreadable16_short tail htail)

/-- Witness of the truncation cases: a count cut off after the byte 1, and a count of 2
followed by one statement and a single byte of the next length. -/
theorem readScriptData_truncated_witness :
    (readScriptData (fun (lua : Unit) _ => ((0 : Int), lua)) [0, 1] ()).1 = false ∧
    (readScriptData (fun (lua : Unit) _ => ((0 : Int), lua))
      [0, 0, 0, 2, 0, 1, 120, 0] ()).1 = false :=
  ⟨((readScriptData_truncated (fun (lua : Unit) _ => ((0 : Int), lua)) [0, 1] ()).1
      (by decide)).2 ⟨1, by decide, by decide⟩,
    (readScriptData_truncated (fun (lua : Unit) _ => ((0 : Int), lua))
      [0, 0, 0, 2, 0, 1, 120, 0] ()).2 (by decide) 1 [0] (by decide) (by decide) (by decide)⟩

/-! ## Timer section lemmas -/

/-- The loop body on an entry whose trigger string does not parse: the two other fields
are drained, the warning is logged and no timer is created. -/
theorem readTimers_entry_bad_trigger {F : Type} (stod : List Byte → Option ℚ)
    (loader : LuaLoader F) (clock : Nat → ℚ) (i : Nat) (e : SavedTimer) (rest : RWops)
    (timers : List (Timer F)) (h : e.NonEmpty) (hbad : stod e.trigger = none) :
    readTimers_entry stod loader clock i
        (encodeTimer e.flag e.trigger e.timeLeft e.blob ++ rest) timers =
      (true, rest, timers, [LogEntry.malformedTimer e.trigger]) := by
  obtain ⟨h1, h2, h3⟩ := h
  have e1 := u8len_read e.trigger (u8len e.timeLeft ++ (u16len e.blob ++ rest)) h1.1 h1.2
  have e2 := u8len_read e.timeLeft (u16len e.blob ++ rest) h2.1 h2.2
  have e3 := u16len_read e.blob rest h3.1 h3.2
  have hs : encodeTimer e.flag e.trigger e.timeLeft e.blob ++ rest =
      e.flag :: (u8len e.trigger ++ (u8len e.timeLeft ++ (u16len e.blob ++ rest))) := by
    simp [encodeTimer]
  rw [hs]
  simp only [readTimers_entry, SDL_ReadU8_cons, e1.2, one_ne_zero, if_false, hbad, e2.2, e3]

/-- The loop body on an entry whose strings parse and whose blob loads from its chunk. -/
theorem readTimers_entry_good {F : Type} (stod : List Byte → Option ℚ)
    (next : Option (List Byte) → LuaLoader F) (clock : Nat → ℚ) (i : Nat) (e : SavedTimer)
    (rest : RWops) (timers : List (Timer F)) (t l : ℚ) (fn : F) (h : e.NonEmpty)
    (ht : stod e.trigger = some t) (hl : stod e.timeLeft = some l)
    (hk : next (some e.blob) = LuaLoader.result (some fn)) :
    readTimers_entry stod (LuaLoader.reader next) clock i
        (encodeTimer e.flag e.trigger e.timeLeft e.blob ++ rest) timers =
      (true, rest,
        timers ++ [{ trigger := t, isLoopable := decide (e.flag.val ≠ 0), luaHandler := fn,
                     lastTime := clock i - (t - l) }], []) := by
  obtain ⟨h1, h2, h3⟩ := h
  have e1 := u8len_read e.trigger (u8len e.timeLeft ++ (u16len e.blob ++ rest)) h1.1 h1.2
  have e2 := u8len_read e.timeLeft (u16len e.blob ++ rest) h2.1 h2.2
  have e3 : SDL_ReadBE16 (u16len e.blob ++ rest) = (e.blob.length, e.blob ++ rest) := by
    rw [u16len, List.append_assoc]
    exact SDL_ReadBE16_be16 _ h3.2 _
  have e4 := lua_load_one_chunk next e.blob rest (some fn) h3.1 hk
  have hs : encodeTimer e.flag e.trigger e.timeLeft e.blob ++ rest =
      e.flag :: (u8len e.trigger ++ (u8len e.timeLeft ++ (u16len e.blob ++ rest))) := by
    simp [encodeTimer]
  rw [hs]
  simp only [readTimers_entry, SDL_ReadU8_cons, e1.2, one_ne_zero, if_false, ht, e2.2, hl, e3,
    e4, Bool.false_eq_true, TimerManager.create, rewindBack_concat]

/-- One turn of the loop of `readTimers` on an entry after which the loop goes on. -/
theorem readTimers_loop_step {F : Type} (stod : List Byte → Option ℚ) (loader : LuaLoader F)
    (clock : Nat → ℚ) (n i : Nat) (rw rw1 : RWops) (timers timers1 : List (Timer F))
    (log : List LogEntry)
    (h : readTimers_entry stod loader clock i rw timers = (true, rw1, timers1, log)) :
    readTimers_loop stod loader clock (n + 1) i rw timers =
      ((readTimers_loop stod loader clock n (i + 1) rw1 timers1).1,
        (readTimers_loop stod loader clock n (i + 1) rw1 timers1).2.1,
        (readTimers_loop stod loader clock n (i + 1) rw1 timers1).2.2.1,
        log ++ (readTimers_loop stod loader clock n (i + 1) rw1 timers1).2.2.2) := by
  rw [readTimers_loop, h]
  simp only [if_true]

theorem readTimers_count {F : Type} (stod : List Byte → Option ℚ) (loader : LuaLoader F)
    (clock : Nat → ℚ) (n : Nat) (hn : n ≤ 65535) (body : RWops) (timers : List (Timer F)) :
    readTimers stod loader clock (be16 n ++ body) timers =
      readTimers_loop stod loader clock n 0 body timers := by
  unfold readTimers
  simp only [SDL_ReadBE16_be16 n hn body]

/-! ## Timer section theorems -/

/-- C11. Malformed timer isolation. On a section of two entries with non-empty fields,
the first with a trigger string that does not parse, the second with strings that parse
to `t` and `l` and a blob that loads as `fn`, `readTimers` returns success, leaves the
stream after the section, logs the malformed-timer warning for the first entry and
creates one timer only, the one for the second entry; it is the timer (same trigger,
loopable flag, callback, and `lastTime` at the registration value minus `t - l`) that
`readTimers` creates from a section holding the second entry alone, registered at the same
clock value. -/
theorem readTimers_malformed_isolated {F : Type} (stod : List Byte → Option ℚ)
    (next : Option (List Byte) → LuaLoader F) (clock : Nat → ℚ) (e1 e2 : SavedTimer)
    (rest : RWops) (timers : List (Timer F)) (t l : ℚ) (fn : F)
    (h1 : e1.NonEmpty) (h2 : e2.NonEmpty) (hbad : stod e1.trigger = none)
    (ht : stod e2.trigger = some t) (hl : stod e2.timeLeft = some l)
    (hk : next (some e2.blob) = LuaLoader.result (some fn)) :
    readTimers stod (LuaLoader.reader next) clock (encodeTimers [e1, e2] ++ rest) timers =
      (true, rest,
        timers ++ [{ trigger := t, isLoopable := decide (e2.flag.val ≠ 0), luaHandler := fn,
                     lastTime := clock 1 - (t - l) }],
        [LogEntry.malformedTimer e1.trigger]) ∧
    readTimers stod (LuaLoader.reader next) (fun i => clock (i + 1))
        (encodeTimers [e2] ++ rest) timers =
      (true, rest,
        timers ++ [{ trigger := t, isLoopable := decide (e2.flag.val ≠ 0), luaHandler := fn,
                     lastTime := clock 1 - (t - l) }], []) := by
  have s2 : encodeTimers [e1, e2] ++ rest =
      be16 2 ++ (encodeTimer e1.flag e1.trigger e1.timeLeft e1.blob ++
        (encodeTimer e2.flag e2.trigger e2.timeLeft e2.blob ++ rest)) := by
    simp [encodeTimers, encodeTimerEntries]
  have s1 : encodeTimers [e2] ++ rest =
      be16 1 ++ (encodeTimer e2.flag e2.trigger e2.timeLeft e2.blob ++ rest) := by
    simp [encodeTimers, encodeTimerEntries]
  have b1 := readTimers_entry_bad_trigger stod (LuaLoader.reader next) clock 0 e1
    (encodeTimer e2.flag e2.trigger e2.timeLeft e2.blob ++ rest) timers h1 hbad
  have g2 := readTimers_entry_good stod next clock 1 e2 rest timers t l fn h2 ht hl hk
  have g1 := readTimers_entry_good stod next (fun i => clock (i + 1)) 0 e2 rest timers t l fn
    h2 ht hl hk
  constructor
  · rw [s2, readTimers_count _ _ _ 2 (by decide), readTimers_loop_step _ _ _ 1 0 _ _ _ _ _ b1,
      readTimers_loop_step _ _ _ 0 1 _ _ _ _ _ g2]
    rfl
  · rw [s1, readTimers_count _ _ _ 1 (by decide), readTimers_loop_step _ _ _ 0 0 _ _ _ _ _ g1]
    rfl

/-- Witness of the isolation: entry 1 with trigger "x", entry 2 with trigger "10.0" and
time left "4.0", the clock standing at 100. -/
theorem readTimers_malformed_isolated_witness :
    readTimers
        (fun str => if str = [49, 48, 46, 48] then some 10
          else if str = [52, 46, 48] then some 4 else none)
        (LuaLoader.reader (fun chunk => LuaLoader.result chunk))
        (fun _ => 100)
        (encodeTimers [⟨0, [120], [53], [27, 1]⟩, ⟨1, [49, 48, 46, 48], [52, 46, 48], [27, 76]⟩]
          ++ [9]) [] =
      (true, [9], [{ trigger := 10, isLoopable := decide ((1 : Byte).val ≠ 0),
                     luaHandler := [27, 76], lastTime := 100 - (10 - 4) }],
        [LogEntry.malformedTimer [120]]) :=
  (readTimers_malformed_isolated
    (fun str => if str = [49, 48, 46, 48] then some 10
          else if str = [52, 46, 48] then some 4 else none)
    (fun chunk => LuaLoader.result chunk) (fun _ => 100)
    ⟨0, [120], [53], [27, 1]⟩ ⟨1, [49, 48, 46, 48], [52, 46, 48], [27, 76]⟩ [9] [] 10 4
    [27, 76] (by unfold SavedTimer.NonEmpty; decide) (by unfold SavedTimer.NonEmpty; decide)
    rfl rfl rfl rfl).1

/-- The loop of `readScriptData` on `n` announced statements: it returns failure exactly
when one of them cannot be read, and the Lua state it leaves is the one obtained by
executing, in order, the statements in front of the first unreadable one. -/
theorem readScriptData_loop_exact {L : Type} (luaL_dostring : L → List Byte → Int × L) :
    ∀ (n : Nat) (rw : RWops) (lua : L),
      ((readScriptData_loop luaL_dostring n rw lua).1 = false ↔ statementsRest n rw = none) ∧
      (readScriptData_loop luaL_dostring n rw lua).2.2 =
        (statementsRead n rw).foldl (fun l st => (luaL_dostring l (c_str st)).2) lua ∧
      (statementsRest n rw = none → (statementsRead n rw).length < n) := by
  intro n
  induction n with
  | zero =>
    intro rw lua
    refine ⟨⟨fun h => ?_, fun h => ?_⟩, rfl, fun h => ?_⟩
    · exact Bool.noConfusion h
    · exact Option.noConfusion h
    · exact Option.noConfusion h
  | succ n ih =>
    intro rw lua
    by_cases hu : fieldUnreadable16 rw
    · have hr : statementsRest (n + 1) rw = none := by
        unfold statementsRest
        rw [if_pos hu]
      have hd : statementsRead (n + 1) rw = [] := by
        unfold statementsRead
        rw [if_pos hu]
      have hf := readScriptData_loop_unreadable luaL_dostring n rw lua hu
      have hl : (readScriptData_loop luaL_dostring (n + 1) rw lua).2.2 = lua := by
        rw [readScriptData_loop]
        simp only [readField16_fail rw hu, if_true]
      refine ⟨⟨fun _ => hr, fun _ => hf⟩, ?_, fun _ => ?_⟩
      · rw [hl, hd]
        rfl
      · rw [hd]
        exact Nat.succ_pos n
    · have hr : statementsRest (n + 1) rw = statementsRest n (afterField16 rw) := by
        rw [statementsRest, if_neg hu]
      have hd : statementsRead (n + 1) rw =
          fieldBytes16 rw :: statementsRead n (afterField16 rw) := by
        rw [statementsRead, if_neg hu]
      have hstep : readScriptData_loop luaL_dostring (n + 1) rw lua =
          readScriptData_loop luaL_dostring n (afterField16 rw)
            (luaL_dostring lua (c_str (fieldBytes16 rw))).2 := by
        rw [readScriptData_loop]
        simp only [readField16_ok rw hu, one_ne_zero, if_false]
      obtain ⟨i1, i2, i3⟩ := ih (afterField16 rw)
        (luaL_dostring lua (c_str (fieldBytes16 rw))).2
      refine ⟨?_, ?_, fun h => ?_⟩
      · rw [hstep, hr]
        exact i1
      · rw [hstep, hd, i2]
        rfl
      · rw [hr] at h
        rw [hd, List.length_cons]
        exact Nat.succ_lt_succ (i3 h)

/-- C21. Exact failure condition of `readScriptData`, `n` being the 32-bit count read:
it returns failure exactly when one of the first `n` statements cannot be read (16-bit
length zero, or fewer bytes left than it announces); in every case the Lua state it leaves
is the one obtained by executing, in stream order, the statements in front of the first
unreadable one, so the executions made before a failure stay; and on failure those are
fewer than `n` statements. -/
theorem readScriptData_failure_iff {L : Type} (luaL_dostring : L → List Byte → Int × L)
    (rw : RWops) (lua : L) :
    ((readScriptData luaL_dostring rw lua).1 = false ↔
      statementsRest (SDL_ReadBE32 rw).1 (SDL_ReadBE32 rw).2 = none) ∧
    (readScriptData luaL_dostring rw lua).2.2 =
      (statementsRead (SDL_ReadBE32 rw).1 (SDL_ReadBE32 rw).2).foldl
        (fun l st => (luaL_dostring l (c_str st)).2) lua ∧
    ((readScriptData luaL_dostring rw lua).1 = false →
      (statementsRead (SDL_ReadBE32 rw).1 (SDL_ReadBE32 rw).2).length < (SDL_ReadBE32 rw).1) := by
  obtain ⟨i1, i2, i3⟩ :=
    readScriptData_loop_exact luaL_dostring (SDL_ReadBE32 rw).1 (SDL_ReadBE32 rw).2 lua
  exact ⟨i1, i2, fun h => i3 (i1.1 h)⟩

/-- Witness of the failure condition: a count of 3, two statements "x" and "yz", then a
statement of length zero; the Lua state is the list of the chunks executed so far. -/
theorem readScriptData_failure_iff_witness :
    (readScriptData (fun (lua : List (List Byte)) chunk => ((0 : Int), lua ++ [chunk]))
      [0, 0, 0, 3, 0, 1, 120, 0, 2, 121, 122, 0, 0] []).1 = false ∧
    (statementsRead 3 [0, 1, 120, 0, 2, 121, 122, 0, 0]).length < 3 :=
  ⟨(readScriptData_failure_iff
      (fun (lua : List (List Byte)) chunk => ((0 : Int), lua ++ [chunk]))
      [0, 0, 0, 3, 0, 1, 120, 0, 2, 121, 122, 0, 0] []).1.2 (by decide),
    (readScriptData_failure_iff
      (fun (lua : List (List Byte)) chunk => ((0 : Int), lua ++ [chunk]))
      [0, 0, 0, 3, 0, 1, 120, 0, 2, 121, 122, 0, 0] []).2.2 (by decide)⟩

/-! ## Callback load failure and control mode at end of stream -/

/-- C23. End of stream is read as zero by `readControlMode`: on the exhausted stream, for
every prior configuration, the control mode is set to drag (code 0) and nothing is logged,
the configuration and log being those obtained when a zero byte is read. -/
theorem readControlMode_end_of_stream (config : Config) (rest : RWops) :
    readControlMode [] config = ([], { controlMode := kControlDrag }, []) ∧
    (readControlMode [] config).2 = (readControlMode (0 :: rest) config).2 := by
  have h0 : readControlMode [] config = ([], { controlMode := kControlDrag }, []) := by
    simp [readControlMode, SDL_ReadU8_nil, kControlDrag]
  have h1 : readControlMode (0 :: rest) config = (rest, { controlMode := kControlDrag }, []) := by
    simp [readControlMode, SDL_ReadU8_cons, kControlDrag]
  rw [h0, h1]
  exact ⟨rfl, rfl⟩

end dagon
